import Mathlib

/-!
Verification of the materials aggregation and dual-scoring engine of the
arcompanion project (src/lib/utils/materials-aggregator.ts).

The TypeScript code is shallowly embedded: the read-only SQL store becomes a
record of row lists with the four parameterized queries the aggregator issues,
JavaScript `Map`/`Set` values (which preserve insertion order) become ordered
association lists, and JavaScript numbers become exact rationals.  All
definitions are executable, so concrete runs of the aggregator can be
evaluated inside proofs.
-/

set_option maxRecDepth 10000

namespace ArCompanion

/-! ## Ordered association lists (JavaScript `Map` semantics)

A JavaScript `Map` iterates entries in key-insertion order; `set` on an
existing key updates the value in place, `set` on a fresh key appends.
-/

/-- `Map.get`: value of the first entry with the given key. -/
def mapGet {α : Type} (m : List (String × α)) (k : String) : Option α :=
  match m with
  | [] => none
  | (k1, v) :: rest => if k1 = k then some v else mapGet rest k

/-- `Map.set`: replace the first entry with the given key, or append. -/
def mapSet {α : Type} (m : List (String × α)) (k : String) (v : α) : List (String × α) :=
  match m with
  | [] => [(k, v)]
  | (k1, v1) :: rest => if k1 = k then (k, v) :: rest else (k1, v1) :: mapSet rest k v

/-- `Map.has`. -/
def mapHas {α : Type} (m : List (String × α)) (k : String) : Bool :=
  (mapGet m k).isSome

/-- Keys of a map, in iteration order. -/
def mapKeys {α : Type} (m : List (String × α)) : List String :=
  m.map (fun p => p.1)

/-- `Set.add`, and the `if (!list.includes(x)) list.push(x)` idiom. -/
def addUnique (l : List String) (x : String) : List String :=
  if x ∈ l then l else l ++ [x]

/-- Sum of all values of a rational-valued map. -/
def sumVals (m : List (String × ℚ)) : ℚ :=
  (m.map (fun p => p.2)).sum

/-! ## Data model

Catalog rows, from `src/lib/types/database.ts` (only the columns the
aggregator reads), and the derived types from `src/lib/types/materials.ts`.
JavaScript numbers are embedded as exact rationals.
-/

/-- Catalog item row (the columns read by the aggregator). -/
structure Item where
  id : String
  name : String
  rarity : String
  value : ℚ
  weight_kg : ℚ
  stack_size : Option ℚ
  deriving DecidableEq, Repr

instance : Inhabited Item := ⟨⟨"", "", "", 0, 0, none⟩⟩

/-- Row of `crafting_recipes`: `item_id` requires `quantity` of `ingredient_id`. -/
structure CraftingRecipe where
  item_id : String
  ingredient_id : String
  quantity : ℚ
  deriving DecidableEq, Repr

/-- Row of `salvaging_outputs`: salvaging `item_id` yields `quantity` of `output_id`. -/
structure SalvagingOutput where
  item_id : String
  output_id : String
  quantity : ℚ
  deriving DecidableEq, Repr

/-- Row of `recycling_outputs`: recycling `item_id` yields `quantity` of `output_id`. -/
structure RecyclingOutput where
  item_id : String
  output_id : String
  quantity : ℚ
  deriving DecidableEq, Repr

/-- The read-only store the aggregator queries (`DatabaseLike`). -/
structure Database where
  items : List Item
  crafting_recipes : List CraftingRecipe
  salvaging_outputs : List SalvagingOutput
  recycling_outputs : List RecyclingOutput
  deriving DecidableEq, Repr

/-- `SELECT * FROM items WHERE id = ?`: first matching row of the items table. -/
def findItem (items : List Item) (id : String) : Option Item :=
  items.find? (fun it => it.id = id)

/-- `SELECT * FROM items WHERE id = ?` via `queryOne`: first matching row. -/
def Database.itemById (db : Database) (id : String) : Option Item :=
  findItem db.items id

/-- `SELECT * FROM crafting_recipes WHERE item_id = ?`: all matching rows in table order. -/
def Database.recipesFor (db : Database) (itemId : String) : List CraftingRecipe :=
  db.crafting_recipes.filter (fun r => r.item_id = itemId)

/-- An aggregated material requirement (`MaterialRequirement`). -/
structure MaterialRequirement where
  item : Item
  totalQuantity : ℚ
  requiredBy : List String
  deriving DecidableEq, Repr

/-- A scored salvaging/recycling source (`SalvagingSource`); the yield maps are
insertion-ordered. -/
structure SalvagingSource where
  item : Item
  salvageYields : List (String × ℚ)
  recycleYields : List (String × ℚ)
  salvageScore : ℚ
  recycleScore : ℚ
  baseName : String
  deriving DecidableEq, Repr

instance : Inhabited SalvagingSource := ⟨⟨⟨"", "", "", 0, 0, none⟩, [], [], 0, 0, ""⟩⟩

/-- Filter options (`MaterialFilterOptions`); the two optional sets of the
TypeScript interface are embedded as lists, an absent set being the empty
list (`?.has(x)` on an absent set is falsy, exactly membership in `[]`). -/
structure MaterialFilterOptions where
  hideScrappyCollected : Bool
  rarityFilters : List String
  hiddenSourceItems : List String
  pausedBookmarks : List String
  deriving DecidableEq, Repr

/-- The scoring method parameter. -/
inductive ScoringMethod where
  | max_yield
  | weight_conscious
  deriving DecidableEq, Repr

/-- The complete output (`AggregatedMaterialsData`). -/
structure AggregatedMaterialsData where
  materials : List MaterialRequirement
  salvageSources : List SalvagingSource
  recycleSources : List SalvagingSource
  materialToSources : List (String × List String)
  sourceToMaterials : List (String × List String)
  deriving DecidableEq, Repr

/-! ## Constants and scoring helpers (lines 10-117 of the source file) -/

/-- Materials auto-collected by the Scrappy drone. -/
def SCRAPPY_MATERIALS : List String :=
  ["metal_parts", "fabric", "plastic_parts", "chemicals", "rubber_parts", "assorted_seeds"]

/-- `RARITY_SALVAGE_PENALTY[rarity] || 1.0`: record lookup with default 1. -/
def RARITY_SALVAGE_PENALTY (rarity : String) : ℚ :=
  if rarity = "Common" then 1
  else if rarity = "Uncommon" then 9/10
  else if rarity = "Rare" then 4/5
  else if rarity = "Epic" then 7/10
  else if rarity = "Legendary" then 3/5
  else 1

/-- `RARITY_RECYCLE_BONUS[rarity] || 1.0`: record lookup with default 1. -/
def RARITY_RECYCLE_BONUS (rarity : String) : ℚ :=
  if rarity = "Common" then 1
  else if rarity = "Uncommon" then 11/10
  else if rarity = "Rare" then 23/20
  else if rarity = "Epic" then 6/5
  else if rarity = "Legendary" then 5/4
  else 1

def IMMEDIACY_BONUS : ℚ := 6/5

def RECYCLING_THRESHOLD : ℚ := 2

def COMPLEXITY_PENALTY : ℚ := 17/20

def SLOT_EFFICIENCY_WEIGHT : ℚ := 3/10

def DEFAULT_STACK_SIZE : ℚ := 1

/-- `Math.round`: round half toward positive infinity. -/
def jsRound (q : ℚ) : ℚ := ((⌊q + 1/2⌋ : ℤ) : ℚ)

/-- `multiMaterialBonus(n) = 1.15^(n-1)` (integer exponent, may be `-1`). -/
def multiMaterialBonus (numMaterials : ℕ) : ℚ :=
  (23/20 : ℚ) ^ ((numMaterials : ℤ) - 1)

/-- `carryWeightPenalty(w) = max(0.3, 1 - w/10)`. -/
def carryWeightPenalty (weight : ℚ) : ℚ :=
  max (3/10) (1 - weight / 10)

/-- `valueBonus(v) = min(1.3, 1 + (v/5000)*0.1)`. -/
def valueBonus (value : ℚ) : ℚ :=
  min (13/10) (1 + (value / 5000) * (1/10))

/-- `materialItem?.stack_size ?? DEFAULT_STACK_SIZE`: stack size of a material
looked up in the store, defaulting to 1 when the row or the column is absent. -/
def stackSizeOf (items : List Item) (materialId : String) : ℚ :=
  ((findItem items materialId).bind (fun it => it.stack_size)).getD DEFAULT_STACK_SIZE

/-- `calculateSlotEfficiency`: ratio of yield-weighted average output stack size
to the source item's stack size. -/
def calculateSlotEfficiency (item : Item) (outputYields : List (String × ℚ))
    (items : List Item) : ℚ :=
  let itemStackSize := item.stack_size.getD DEFAULT_STACK_SIZE
  if outputYields.length = 0 then 1
  else
    let totalQuantity := sumVals outputYields
    let weightedStackSum :=
      (outputYields.map (fun p => stackSizeOf items p.1 * p.2)).sum
    let avgOutputStack := weightedStackSum / totalQuantity
    avgOutputStack / itemStackSize

/-- The slot-efficiency bonus applied to both scores:
`max(1.0, 1 + (slotEfficiency - 1) * SLOT_EFFICIENCY_WEIGHT)`. -/
def slotBonusOf (slotEfficiency : ℚ) : ℚ :=
  max 1 (1 + (slotEfficiency - 1) * SLOT_EFFICIENCY_WEIGHT)

/-- `getBaseName`: strip a trailing `\s+(I|II|III|IV)` tier suffix. -/
def getBaseName (name : String) : String :=
  let rev := name.data.reverse
  let tier := (rev.takeWhile (fun c => ¬ c.isWhitespace)).reverse.asString
  let rest := rev.dropWhile (fun c => ¬ c.isWhitespace)
  if (tier = "I" ∨ tier = "II" ∨ tier = "III" ∨ tier = "IV") ∧
      (rest.headD ' ').isWhitespace ∧ rest ≠ [] then
    ((rest.dropWhile (fun c => c.isWhitespace)).reverse).asString
  else
    name

/-- `shouldIncludeMaterial`: rarity filter, then Scrappy filter. -/
def shouldIncludeMaterial (material : Item) (filterOptions : MaterialFilterOptions) : Bool :=
  if material.rarity ∉ filterOptions.rarityFilters then false
  else if filterOptions.hideScrappyCollected ∧ material.id ∈ SCRAPPY_MATERIALS then false
  else true

/-! ## Step 1: material demand resolution (source lines 131-178) -/

/-- The three mutable maps of Step 1. -/
structure DemandState where
  materialQuantityMap : List (String × ℚ)
  materialRequiredByMap : List (String × List String)
  materialItemsMap : List (String × Item)
  deriving DecidableEq, Repr

/-- Body of the inner `for (const recipe of recipes)` loop: cache the
ingredient item, apply the material filter, accumulate quantity and the
requiring bookmark. -/
def processRecipe (db : Database) (filterOptions : MaterialFilterOptions) (itemId : String)
    (st : DemandState) (recipe : CraftingRecipe) : DemandState :=
  let itemsMap :=
    if mapHas st.materialItemsMap recipe.ingredient_id then st.materialItemsMap
    else
      match db.itemById recipe.ingredient_id with
      | some materialItem => mapSet st.materialItemsMap recipe.ingredient_id materialItem
      | none => st.materialItemsMap
  match mapGet itemsMap recipe.ingredient_id with
  | none => { st with materialItemsMap := itemsMap }
  | some materialItem =>
    if ¬ shouldIncludeMaterial materialItem filterOptions then
      { st with materialItemsMap := itemsMap }
    else
      let currentQuantity := (mapGet st.materialQuantityMap recipe.ingredient_id).getD 0
      { materialQuantityMap :=
          mapSet st.materialQuantityMap recipe.ingredient_id (currentQuantity + recipe.quantity),
        materialRequiredByMap :=
          mapSet st.materialRequiredByMap recipe.ingredient_id
            (addUnique ((mapGet st.materialRequiredByMap recipe.ingredient_id).getD []) itemId),
        materialItemsMap := itemsMap }

/-- Body of the outer `for (const itemId of bookmarkedIds)` loop: skip paused
bookmarks, process the bookmark's recipe rows. -/
def processBookmark (db : Database) (filterOptions : MaterialFilterOptions)
    (st : DemandState) (itemId : String) : DemandState :=
  if itemId ∈ filterOptions.pausedBookmarks then st
  else (db.recipesFor itemId).foldl (processRecipe db filterOptions itemId) st

/-- Step 1 in full, starting from the three empty maps. -/
def resolveDemand (bookmarkedIds : List String) (db : Database)
    (filterOptions : MaterialFilterOptions) : DemandState :=
  bookmarkedIds.foldl (processBookmark db filterOptions) ⟨[], [], []⟩

/-! ## Step 2: the materials array (source lines 180-196) -/

/-- Build the `MaterialRequirement` array from the demand maps (before sorting). -/
def buildMaterials (st : DemandState) : List MaterialRequirement :=
  st.materialQuantityMap.filterMap (fun p =>
    (mapGet st.materialItemsMap p.1).map (fun item =>
      { item := item, totalQuantity := p.2,
        requiredBy := (mapGet st.materialRequiredByMap p.1).getD [] }))

/-- Stable insertion of `x` into a descending-by-key list, after any element
with an equal key. -/
def insertDescBy {α : Type} (key : α → ℚ) (x : α) : List α → List α
  | [] => [x]
  | y :: ys => if key x ≤ key y then y :: insertDescBy key x ys else x :: y :: ys

/-- Stable descending sort by a rational key, modelling
`array.sort((a, b) => key(b) - key(a))` (JavaScript sort is stable). -/
def sortDescBy {α : Type} (key : α → ℚ) (l : List α) : List α :=
  l.foldl (fun acc x => insertDescBy key x acc) []

/-! ## Step 3: source discovery and tier grouping (source lines 198-287) -/

/-- Joined rows of `salvaging_outputs so JOIN items i ON so.item_id = i.id
WHERE so.output_id = ? AND so.item_id NOT IN (excluded)`, in table order. -/
def salvageRowsFor (items : List Item) (outputs : List SalvagingOutput)
    (materialId : String) (excludedIds : List String) : List (Item × ℚ) :=
  outputs.filterMap (fun so =>
    if so.output_id = materialId ∧ so.item_id ∉ excludedIds then
      (findItem items so.item_id).map (fun i => (i, so.quantity))
    else none)

/-- The recycling analogue of `salvageRowsFor`. -/
def recycleRowsFor (items : List Item) (outputs : List RecyclingOutput)
    (materialId : String) (excludedIds : List String) : List (Item × ℚ) :=
  outputs.filterMap (fun ro =>
    if ro.output_id = materialId ∧ ro.item_id ∉ excludedIds then
      (findItem items ro.item_id).map (fun i => (i, ro.quantity))
    else none)

/-- One entry of `groupedSources`: the tier variants sharing a base name. -/
structure SourceGroup where
  items : List Item
  salvageYieldsMap : List (String × ℚ)
  recycleYieldsMap : List (String × ℚ)
  baseName : String
  deriving DecidableEq, Repr

/-- Fold one joined salvaging row into `groupedSources`: create the group if
needed, add the item unless an item with its id is present, and accumulate the
salvage yield for the queried material. -/
def addSalvageRow (materialId : String) (gs : List (String × SourceGroup)) (row : Item × ℚ) :
    List (String × SourceGroup) :=
  let baseName := getBaseName row.1.name
  let group := (mapGet gs baseName).getD ⟨[], [], [], baseName⟩
  let items :=
    if group.items.any (fun it => it.id = row.1.id) then group.items else group.items ++ [row.1]
  let currentYield := (mapGet group.salvageYieldsMap materialId).getD 0
  mapSet gs baseName
    { group with
      items := items
      salvageYieldsMap := mapSet group.salvageYieldsMap materialId (currentYield + row.2) }

/-- Fold one joined recycling row into `groupedSources`. -/
def addRecycleRow (materialId : String) (gs : List (String × SourceGroup)) (row : Item × ℚ) :
    List (String × SourceGroup) :=
  let baseName := getBaseName row.1.name
  let group := (mapGet gs baseName).getD ⟨[], [], [], baseName⟩
  let items :=
    if group.items.any (fun it => it.id = row.1.id) then group.items else group.items ++ [row.1]
  let currentYield := (mapGet group.recycleYieldsMap materialId).getD 0
  mapSet gs baseName
    { group with
      items := items
      recycleYieldsMap := mapSet group.recycleYieldsMap materialId (currentYield + row.2) }

/-- Both discovery loops: all salvaging rows per demanded material, then all
recycling rows per demanded material. -/
def collectGroups (items : List Item) (salvagingOutputs : List SalvagingOutput)
    (recyclingOutputs : List RecyclingOutput) (materialIds excludedIds : List String) :
    List (String × SourceGroup) :=
  let afterSalvage := materialIds.foldl (fun gs materialId =>
    (salvageRowsFor items salvagingOutputs materialId excludedIds).foldl
      (addSalvageRow materialId) gs) []
  materialIds.foldl (fun gs materialId =>
    (recycleRowsFor items recyclingOutputs materialId excludedIds).foldl
      (addRecycleRow materialId) gs) afterSalvage

/-! ## Step 4: dual scoring (source lines 289-403) -/

/-- Average the accumulated yields over the tier-group size (`Math.round`),
keeping only materials still present in the demand map. -/
def avgYields (yieldsMap : List (String × ℚ)) (memberCount : ℕ)
    (materialQuantityMap : List (String × ℚ)) : List (String × ℚ) :=
  yieldsMap.foldl (fun acc p =>
    if mapHas materialQuantityMap p.1 then
      mapSet acc p.1 (jsRound (p.2 / (memberCount : ℚ)))
    else acc) []

/-- Demand-weighted base score: `Σ yieldAmount * (userNeeds / totalDemand)`,
guarded by `totalDemand > 0 && totalYield > 0`. -/
def baseScoreOf (avg : List (String × ℚ)) (materialQuantityMap : List (String × ℚ))
    (totalDemand : ℚ) : ℚ :=
  if 0 < totalDemand ∧ 0 < sumVals avg then
    (avg.map (fun p => p.2 * (((mapGet materialQuantityMap p.1).getD 0) / totalDemand))).sum
  else 0

/-- Total weight of the averaged salvage yields; a yield whose material row is
missing contributes nothing. -/
def totalYieldWeightOf (avg : List (String × ℚ)) (items : List Item) : ℚ :=
  (avg.map (fun p =>
    match findItem items p.1 with
    | some materialItem => p.2 * materialItem.weight_kg
    | none => 0)).sum

/-- The salvage-score formula (source lines 346-358):
`(salvageBaseScore / weightFactor) * rarityPenalty * IMMEDIACY_BONUS * slotBonus`,
where the weight factor is squared in weight-conscious mode. -/
def salvageScoreCalc (salvageBaseScore effectiveWeight : ℚ) (rarity : String)
    (slotBonus : ℚ) (scoringMethod : ScoringMethod) : ℚ :=
  let weightFactor :=
    if scoringMethod = ScoringMethod.weight_conscious then effectiveWeight ^ 2
    else effectiveWeight
  salvageBaseScore / weightFactor * RARITY_SALVAGE_PENALTY rarity * IMMEDIACY_BONUS * slotBonus

/-- The recycle-score formula (source lines 372-393), before the slot bonus. -/
def recycleScoreCalc (recycleBaseScore : ℚ) (representativeItem : Item)
    (numMaterials : ℕ) (scoringMethod : ScoringMethod) : ℚ :=
  if scoringMethod = ScoringMethod.max_yield then
    recycleBaseScore / representativeItem.weight_kg
      * RARITY_RECYCLE_BONUS representativeItem.rarity
      * multiMaterialBonus numMaterials * COMPLEXITY_PENALTY
  else
    recycleBaseScore / representativeItem.weight_kg ^ 2
      * RARITY_RECYCLE_BONUS representativeItem.rarity
      * multiMaterialBonus numMaterials * carryWeightPenalty representativeItem.weight_kg
      * valueBonus representativeItem.value * COMPLEXITY_PENALTY

/-- Score one grouped source (`none` models `continue`: a group with no
salvaging and no recycling data is skipped).  The representative is the first
tier variant encountered; groups always hold at least one item. -/
def buildSource (items : List Item) (scoringMethod : ScoringMethod)
    (materialQuantityMap : List (String × ℚ)) (totalDemand : ℚ)
    (group : SourceGroup) : Option SalvagingSource :=
  if group.salvageYieldsMap.length = 0 ∧ group.recycleYieldsMap.length = 0 then none
  else
    let representativeItem := group.items.headI
    let avgSalvageYields := avgYields group.salvageYieldsMap group.items.length materialQuantityMap
    let avgRecycleYields := avgYields group.recycleYieldsMap group.items.length materialQuantityMap
    let salvageBaseScore := baseScoreOf avgSalvageYields materialQuantityMap totalDemand
    let totalYieldWeight := totalYieldWeightOf avgSalvageYields items
    let effectiveWeight :=
      if 0 < totalYieldWeight then totalYieldWeight else representativeItem.weight_kg
    let slotEfficiency := calculateSlotEfficiency representativeItem avgSalvageYields items
    let salvageScore :=
      salvageScoreCalc salvageBaseScore effectiveWeight representativeItem.rarity
        (slotBonusOf slotEfficiency) scoringMethod
    let recycleBaseScore := baseScoreOf avgRecycleYields materialQuantityMap totalDemand
    let recycleSlotEfficiency := calculateSlotEfficiency representativeItem avgRecycleYields items
    let recycleScore :=
      recycleScoreCalc recycleBaseScore representativeItem avgRecycleYields.length scoringMethod
        * slotBonusOf recycleSlotEfficiency
    some { item := representativeItem
           salvageYields := avgSalvageYields
           recycleYields := avgRecycleYields
           salvageScore := salvageScore
           recycleScore := recycleScore
           baseName := group.baseName }

/-- All scored sources, in group-insertion order. -/
def buildAllSources (items : List Item) (scoringMethod : ScoringMethod)
    (materialQuantityMap : List (String × ℚ)) (totalDemand : ℚ)
    (gs : List (String × SourceGroup)) : List SalvagingSource :=
  gs.filterMap (fun p => buildSource items scoringMethod materialQuantityMap totalDemand p.2)

/-! ## Step 5: bucket partition (source lines 405-439) -/

/-- The branch of the partitioning loop that pushes onto `recycleSources`. -/
def sentToRecycle (source : SalvagingSource) : Bool :=
  if source.salvageScore = 0 ∧ source.recycleScore = 0 then false
  else if source.salvageScore = 0 ∧ 0 < source.recycleScore then true
  else if source.recycleScore = 0 ∧ 0 < source.salvageScore then false
  else decide (RECYCLING_THRESHOLD < source.recycleScore / source.salvageScore)

/-- The branch of the partitioning loop that pushes onto `salvageSources`. -/
def sentToSalvage (source : SalvagingSource) : Bool :=
  if source.salvageScore = 0 ∧ source.recycleScore = 0 then false
  else if source.salvageScore = 0 ∧ 0 < source.recycleScore then false
  else if source.recycleScore = 0 ∧ 0 < source.salvageScore then true
  else decide (¬ RECYCLING_THRESHOLD < source.recycleScore / source.salvageScore)

/-! ## Step 6: relationship maps (source lines 441-469) -/

/-- The two hover-highlighting indices. -/
structure RelMaps where
  materialToSources : List (String × List String)
  sourceToMaterials : List (String × List String)
  deriving DecidableEq, Repr

/-- Fold one source into the relationship maps: iterate the keys of
`new Map([...salvageYields, ...recycleYields])`, append the source id to each
material's list (if absent), and record the deduplicated material list. -/
def addSourceRels (acc : RelMaps) (source : SalvagingSource) : RelMaps :=
  let sourceId := source.item.id
  let allYields :=
    (source.salvageYields ++ source.recycleYields).foldl (fun m p => mapSet m p.1 p.2) []
  let step := allYields.foldl
    (fun (st : List (String × List String) × List String) p =>
      (mapSet st.1 p.1 (addUnique ((mapGet st.1 p.1).getD []) sourceId),
       addUnique st.2 p.1))
    (acc.materialToSources, [])
  { materialToSources := step.1
    sourceToMaterials := mapSet acc.sourceToMaterials sourceId step.2 }

/-! ## The aggregator -/

/-- Steps 2-6, which depend on the store only through the items table and the
two output tables (the recipes table is read only by Step 1). -/
def buildFromDemand (items : List Item) (salvagingOutputs : List SalvagingOutput)
    (recyclingOutputs : List RecyclingOutput) (bookmarkedIds : List String)
    (scoringMethod : ScoringMethod) (filterOptions : MaterialFilterOptions)
    (st : DemandState) : AggregatedMaterialsData :=
  let materials := sortDescBy (fun m => m.totalQuantity) (buildMaterials st)
  let materialIds := mapKeys st.materialQuantityMap
  let excludedIds := bookmarkedIds ++ materialIds ++ filterOptions.hiddenSourceItems
  let groups := collectGroups items salvagingOutputs recyclingOutputs materialIds excludedIds
  let totalDemand := sumVals st.materialQuantityMap
  let allSources := buildAllSources items scoringMethod st.materialQuantityMap totalDemand groups
  let salvageSources := sortDescBy (fun s => s.salvageScore) (allSources.filter sentToSalvage)
  let recycleSources := sortDescBy (fun s => s.recycleScore) (allSources.filter sentToRecycle)
  let rel := (salvageSources ++ recycleSources).foldl addSourceRels ⟨[], []⟩
  { materials := materials
    salvageSources := salvageSources
    recycleSources := recycleSources
    materialToSources := rel.materialToSources
    sourceToMaterials := rel.sourceToMaterials }

/-- `aggregateMaterials`, the single entry point.  A bookmark `Set<string>` is
embedded as its insertion-order element list. -/
def aggregateMaterials (bookmarkedIds : List String) (db : Database)
    (scoringMethod : ScoringMethod) (filterOptions : MaterialFilterOptions) :
    AggregatedMaterialsData :=
  buildFromDemand db.items db.salvaging_outputs db.recycling_outputs bookmarkedIds
    scoringMethod filterOptions (resolveDemand bookmarkedIds db filterOptions)

/-- The scored source list (`allSources`) of a run, before partitioning: both
output buckets of `aggregateMaterials` are stable descending sorts of filters
of this list. -/
def aggregateAllSources (bookmarkedIds : List String) (db : Database)
    (scoringMethod : ScoringMethod) (filterOptions : MaterialFilterOptions) :
    List SalvagingSource :=
  let st := resolveDemand bookmarkedIds db filterOptions
  let materialIds := mapKeys st.materialQuantityMap
  let excludedIds := bookmarkedIds ++ materialIds ++ filterOptions.hiddenSourceItems
  let groups := collectGroups db.items db.salvaging_outputs db.recycling_outputs
    materialIds excludedIds
  buildAllSources db.items scoringMethod st.materialQuantityMap
    (sumVals st.materialQuantityMap) groups

/-! ## Derived notions used to state the properties -/

/-- Contribution of one recipe edge to the total demand: its quantity when its
ingredient exists in the store and passes the rarity/Scrappy filter, else 0. -/
def edgeContribution (db : Database) (filterOptions : MaterialFilterOptions)
    (recipe : CraftingRecipe) : ℚ :=
  match db.itemById recipe.ingredient_id with
  | some materialItem => if shouldIncludeMaterial materialItem filterOptions then recipe.quantity else 0
  | none => 0

/-- A store whose numeric catalog columns are non-negative, as the game data
is (quantities, weights and values are non-negative in the catalog). -/
def NonnegDB (db : Database) : Prop :=
  (∀ it ∈ db.items, 0 ≤ it.weight_kg ∧ 0 ≤ it.value)
  ∧ (∀ r ∈ db.crafting_recipes, 0 ≤ r.quantity)
  ∧ (∀ so ∈ db.salvaging_outputs, 0 ≤ so.quantity)
  ∧ (∀ ro ∈ db.recycling_outputs, 0 ≤ ro.quantity)

instance (db : Database) : Decidable (NonnegDB db) := by
  unfold NonnegDB
  infer_instance

/-- The deduplicated material-id list a source contributes to the
relationship maps: the keys of `new Map([...salvageYields, ...recycleYields])`
in first-seen order. -/
def matsOf (source : SalvagingSource) : List String :=
  mapKeys ((source.salvageYields ++ source.recycleYields).foldl
    (fun m p => mapSet m p.1 p.2) [])

/-- Invariant of the relationship-indexer fold after processing a list of
sources: `sourceToMaterials` holds exactly the processed sources' material
lists, `materialToSources` holds exactly the back-references, and every
`materialToSources` list is duplicate-free. -/
def IndexerInv (processed : List SalvagingSource) (acc : RelMaps) : Prop :=
  (∀ src ∈ processed, mapGet acc.sourceToMaterials src.item.id = some (matsOf src))
  ∧ (∀ s l, mapGet acc.sourceToMaterials s = some l →
      ∃ src ∈ processed, src.item.id = s ∧ l = matsOf src)
  ∧ (∀ src ∈ processed, ∀ m ∈ matsOf src,
      src.item.id ∈ (mapGet acc.materialToSources m).getD [])
  ∧ (∀ m s, s ∈ (mapGet acc.materialToSources m).getD [] →
      ∃ src ∈ processed, src.item.id = s ∧ m ∈ matsOf src)
  ∧ (∀ m, ((mapGet acc.materialToSources m).getD []).Nodup)

/-! ## Invariants maintained by the pipeline folds -/

/-- The Step 1 item cache is consistent with the store: a cached entry always
equals the store row for its key. -/
def CacheOK (db : Database) (st : DemandState) : Prop :=
  ∀ k it, mapGet st.materialItemsMap k = some it → db.itemById k = some it

/-- Every key of the quantity map has a cached item row. -/
def QtyKeysCached (st : DemandState) : Prop :=
  ∀ k, (mapGet st.materialQuantityMap k).isSome → (mapGet st.materialItemsMap k).isSome

/-- All accumulated demand quantities are non-negative. -/
def QtyNonneg (st : DemandState) : Prop :=
  ∀ p ∈ st.materialQuantityMap, 0 ≤ p.2

/-- Structural well-formedness of the grouped-sources map: every group is
keyed by its base name, is non-empty, and contains only items that are store
rows, share that base name, and are not excluded. -/
def GroupsWF (items : List Item) (excludedIds : List String)
    (gs : List (String × SourceGroup)) : Prop :=
  ∀ p ∈ gs, p.2.items ≠ [] ∧ p.2.baseName = p.1
    ∧ ∀ it ∈ p.2.items,
        findItem items it.id = some it ∧ getBaseName it.name = p.1 ∧ it.id ∉ excludedIds

/-- All accumulated group yields are non-negative. -/
def GroupsNonneg (gs : List (String × SourceGroup)) : Prop :=
  ∀ p ∈ gs, (∀ q ∈ p.2.salvageYieldsMap, 0 ≤ q.2) ∧ (∀ q ∈ p.2.recycleYieldsMap, 0 ≤ q.2)

/-! ## Concrete stores, used to instantiate the theorems on explicit inputs -/

/-- A craftable item bookmarked in the demo store. -/
def demoItemX : Item := ⟨"x", "Crafted Thing", "Common", 0, 1, some 1⟩

/-- Demanded material 1. -/
def demoItemM1 : Item := ⟨"m1", "Metal", "Common", 10, 1, some 1⟩

/-- Demanded material 2. -/
def demoItemM2 : Item := ⟨"m2", "Cloth", "Common", 0, 1, some 1⟩

/-- Tier variant 1 of the Gadget source. -/
def demoItemG1 : Item := ⟨"g1", "Gadget I", "Common", 100, 2, some 1⟩

/-- Tier variant 2 of the Gadget source. -/
def demoItemG2 : Item := ⟨"g2", "Gadget II", "Common", 100, 2, some 1⟩

/-- Tier variant 3 of the Gadget source. -/
def demoItemG3 : Item := ⟨"g3", "Gadget III", "Common", 100, 2, some 1⟩

/-- A recycle-only source. -/
def demoItemBox : Item := ⟨"box", "Box", "Common", 0, 1, some 1⟩

/-- A small but complete store: one bookmark needing two materials, a
three-tier source group and a recycle-only source. -/
def demoDb : Database :=
  { items := [demoItemX, demoItemM1, demoItemM2, demoItemG1, demoItemG2, demoItemG3, demoItemBox]
    crafting_recipes := [⟨"x", "m1", 5⟩, ⟨"x", "m2", 5⟩]
    salvaging_outputs := [⟨"g1", "m1", 1⟩, ⟨"g1", "m2", 3⟩, ⟨"g2", "m2", 3⟩, ⟨"g3", "m2", 3⟩]
    recycling_outputs := [⟨"g1", "m2", 3⟩, ⟨"box", "m2", 20⟩] }

/-- The permissive filter configuration (all rarities, nothing hidden). -/
def demoFilt : MaterialFilterOptions :=
  { hideScrappyCollected := false
    rarityFilters := ["Common", "Uncommon", "Rare", "Epic", "Legendary"]
    hiddenSourceItems := []
    pausedBookmarks := [] }

/-- The demo aggregation run. -/
def demoResult : AggregatedMaterialsData :=
  aggregateMaterials ["x"] demoDb ScoringMethod.max_yield demoFilt

/-- Bookmarked item of the weight-two store. -/
def cexItemX : Item := ⟨"x5", "Crafted Gizmo", "Common", 0, 1, some 1⟩

/-- Light material of the weight-two store (weight 1/4). -/
def cexItemM : Item := ⟨"mm", "Feather", "Common", 0, 1/4, some 1⟩

/-- Source item of the weight-two store, `weight_kg = 2`. -/
def cexItemW : Item := ⟨"w5", "Widget", "Common", 0, 2, some 1⟩

/-- A store whose single source has `weight_kg = 2` but whose salvage yields
are light: the total yield weight is `2 * 1/4 = 1/2 < 1`. -/
def cexDb : Database :=
  { items := [cexItemX, cexItemM, cexItemW]
    crafting_recipes := [⟨"x5", "mm", 10⟩]
    salvaging_outputs := [⟨"w5", "mm", 2⟩]
    recycling_outputs := [] }

/-! ## Lemma library: ordered association lists -/

theorem mapGet_mapSet_self {α : Type} (m : List (String × α)) (k : String) (v : α) :
    mapGet (mapSet m k v) k = some v := by
  induction m with
  | nil => simp [mapGet, mapSet]
  | cons p rest ih =>
    obtain ⟨k1, v1⟩ := p
    by_cases h : k1 = k <;> simp [mapGet, mapSet, h, ih]

theorem mapGet_mapSet_of_ne {α : Type} (m : List (String × α)) (k k2 : String) (v : α)
    (h : k2 ≠ k) : mapGet (mapSet m k v) k2 = mapGet m k2 := by
  induction m with
  | nil => simp [mapGet, mapSet, Ne.symm h]
  | cons p rest ih =>
    obtain ⟨k1, v1⟩ := p
    by_cases h1 : k1 = k
    · subst h1
      simp [mapGet, mapSet, Ne.symm h]
    · by_cases h2 : k1 = k2 <;> simp [mapGet, mapSet, h1, h2, h, ih]

theorem sumVals_mapSet (m : List (String × ℚ)) (k : String) (v : ℚ) :
    sumVals (mapSet m k v) = sumVals m + v - ((mapGet m k).getD 0) := by
  induction m with
  | nil => simp [sumVals, mapSet, mapGet]
  | cons p rest ih =>
    obtain ⟨k1, v1⟩ := p
    by_cases h : k1 = k
    · simp [sumVals, mapSet, mapGet, h]
      ring
    · simp only [sumVals, mapSet, mapGet, h, if_false, List.map_cons, List.sum_cons] at *
      rw [ih]
      ring

theorem mapGet_isSome_of_mem {α : Type} (m : List (String × α)) (k : String) (v : α)
    (h : (k, v) ∈ m) : (mapGet m k).isSome := by
  induction m with
  | nil => simp at h
  | cons p rest ih =>
    obtain ⟨k1, v1⟩ := p
    rcases List.mem_cons.mp h with h1 | h1
    · rw [Prod.mk.injEq] at h1
      simp [mapGet, ← h1.1]
    · by_cases hk : k1 = k <;> simp [mapGet, hk, ih h1]

theorem mem_of_mapGet_eq_some {α : Type} (m : List (String × α)) (k : String) (v : α)
    (h : mapGet m k = some v) : (k, v) ∈ m := by
  induction m with
  | nil => simp [mapGet] at h
  | cons p rest ih =>
    obtain ⟨k1, v1⟩ := p
    by_cases hk : k1 = k
    · subst hk
      simp [mapGet] at h
      simp [h]
    · simp [mapGet, hk] at h
      exact List.mem_cons_of_mem _ (ih h)

theorem mapKeys_mapSet_of_has {α : Type} (m : List (String × α)) (k : String) (v : α)
    (h : (mapGet m k).isSome) : mapKeys (mapSet m k v) = mapKeys m := by
  induction m with
  | nil => simp [mapGet] at h
  | cons p rest ih =>
    obtain ⟨k1, v1⟩ := p
    by_cases hk : k1 = k
    · simp [mapKeys, mapSet, hk]
    · simp [mapGet, hk] at h
      simp [mapKeys, mapSet, hk] at *
      exact ih h

theorem mapKeys_mapSet_of_not_has {α : Type} (m : List (String × α)) (k : String) (v : α)
    (h : ¬ (mapGet m k).isSome) : mapKeys (mapSet m k v) = mapKeys m ++ [k] := by
  induction m with
  | nil => simp [mapKeys, mapSet]
  | cons p rest ih =>
    obtain ⟨k1, v1⟩ := p
    by_cases hk : k1 = k
    · subst hk
      simp [mapGet] at h
    · simp [mapGet, hk] at h
      simp [mapKeys, mapSet, hk] at *
      exact ih h

theorem mapGet_eq_none_of_not_mem_keys {α : Type} (m : List (String × α)) (k : String)
    (h : k ∉ mapKeys m) : mapGet m k = none := by
  induction m with
  | nil => simp [mapGet]
  | cons p rest ih =>
    obtain ⟨k1, v1⟩ := p
    simp [mapKeys] at h
    simp [mapGet, Ne.symm h.1, ih (by simpa [mapKeys] using h.2)]

theorem mem_keys_of_mapGet_isSome {α : Type} (m : List (String × α)) (k : String)
    (h : (mapGet m k).isSome) : k ∈ mapKeys m := by
  by_contra hc
  rw [mapGet_eq_none_of_not_mem_keys m k hc] at h
  simp at h

theorem mem_mapSet_elim {α : Type} (m : List (String × α)) (k : String) (v : α)
    (p : String × α) (h : p ∈ mapSet m k v) : p = (k, v) ∨ p ∈ m := by
  induction m with
  | nil => simpa [mapSet] using h
  | cons q rest ih =>
    obtain ⟨k1, v1⟩ := q
    by_cases hk : k1 = k
    · simp [mapSet, hk] at h
      rcases h with h | h
      · exact Or.inl h
      · exact Or.inr (List.mem_cons_of_mem _ h)
    · simp [mapSet, hk] at h
      rcases h with h | h
      · exact Or.inr (List.mem_cons.mpr (Or.inl h))
      · rcases ih h with h1 | h1
        · exact Or.inl h1
        · exact Or.inr (List.mem_cons_of_mem _ h1)

/-! ## Lemma library: generic fold, sort and query facts -/

theorem foldl_preserves {α β : Type} (P : β → Prop) (f : β → α → β) (l : List α) (acc : β)
    (hstep : ∀ b a, a ∈ l → P b → P (f b a)) (hacc : P acc) : P (l.foldl f acc) := by
  induction l generalizing acc with
  | nil => exact hacc
  | cons x xs ih =>
    exact ih (f acc x) (fun b a ha hb => hstep b a (List.mem_cons_of_mem _ ha) hb)
      (hstep acc x (List.mem_cons_self _ _) hacc)

theorem insertDescBy_perm {α : Type} (key : α → ℚ) (x : α) (l : List α) :
    List.Perm (insertDescBy key x l) (x :: l) := by
  induction l with
  | nil => exact List.Perm.refl _
  | cons y ys ih =>
    unfold insertDescBy
    by_cases h : key x ≤ key y
    · simp only [h, if_true]
      exact List.Perm.trans (List.Perm.cons y ih) (List.Perm.swap x y ys)
    · simp only [h, if_false]
      exact List.Perm.refl _

theorem sortDescBy_foldl_perm {α : Type} (key : α → ℚ) (l acc : List α) :
    List.Perm (l.foldl (fun a x => insertDescBy key x a) acc) (acc ++ l) := by
  induction l generalizing acc with
  | nil => simp
  | cons x xs ih =>
    have h1 : List.Perm (insertDescBy key x acc ++ xs) ((x :: acc) ++ xs) :=
      List.Perm.append_right xs (insertDescBy_perm key x acc)
    have h2 : List.Perm ((x :: acc) ++ xs) (acc ++ x :: xs) := by
      simpa using List.perm_middle.symm
    exact List.Perm.trans (ih (insertDescBy key x acc)) (h1.trans h2)

theorem sortDescBy_perm {α : Type} (key : α → ℚ) (l : List α) :
    List.Perm (sortDescBy key l) l := by
  simpa using sortDescBy_foldl_perm key l []

theorem mem_sortDescBy {α : Type} (key : α → ℚ) (l : List α) (a : α) :
    a ∈ sortDescBy key l ↔ a ∈ l :=
  (sortDescBy_perm key l).mem_iff

theorem findItem_id (items : List Item) (id : String) (it : Item)
    (h : findItem items id = some it) : it.id = id := by
  have := List.find?_some h
  simpa using this

theorem findItem_mem (items : List Item) (id : String) (it : Item)
    (h : findItem items id = some it) : it ∈ items :=
  List.mem_of_find?_eq_some h

theorem RARITY_SALVAGE_PENALTY_pos (rarity : String) : 0 < RARITY_SALVAGE_PENALTY rarity := by
  unfold RARITY_SALVAGE_PENALTY
  split_ifs <;> norm_num

theorem RARITY_RECYCLE_BONUS_pos (rarity : String) : 0 < RARITY_RECYCLE_BONUS rarity := by
  unfold RARITY_RECYCLE_BONUS
  split_ifs <;> norm_num

theorem headI_mem {α : Type} [Inhabited α] (l : List α) (h : l ≠ []) : l.headI ∈ l := by
  cases l with
  | nil => exact absurd rfl h
  | cons a t => exact List.mem_cons_self a t

theorem mem_salvageRowsFor (items : List Item) (outputs : List SalvagingOutput)
    (materialId : String) (excludedIds : List String) (row : Item × ℚ)
    (h : row ∈ salvageRowsFor items outputs materialId excludedIds) :
    findItem items row.1.id = some row.1 ∧ row.1.id ∉ excludedIds
      ∧ ∃ so ∈ outputs, row.2 = so.quantity := by
  unfold salvageRowsFor at h
  rw [List.mem_filterMap] at h
  obtain ⟨so, hso, hmap⟩ := h
  by_cases hc : so.output_id = materialId ∧ so.item_id ∉ excludedIds
  · rw [if_pos hc] at hmap
    rw [Option.map_eq_some'] at hmap
    obtain ⟨it, hit, heq⟩ := hmap
    have hid : it.id = so.item_id := findItem_id items so.item_id it hit
    subst heq
    exact ⟨by rw [hid]; exact hit, by rw [hid]; exact hc.2, so, hso, rfl⟩
  · rw [if_neg hc] at hmap
    cases hmap

theorem mem_recycleRowsFor (items : List Item) (outputs : List RecyclingOutput)
    (materialId : String) (excludedIds : List String) (row : Item × ℚ)
    (h : row ∈ recycleRowsFor items outputs materialId excludedIds) :
    findItem items row.1.id = some row.1 ∧ row.1.id ∉ excludedIds
      ∧ ∃ ro ∈ outputs, row.2 = ro.quantity := by
  unfold recycleRowsFor at h
  rw [List.mem_filterMap] at h
  obtain ⟨ro, hro, hmap⟩ := h
  by_cases hc : ro.output_id = materialId ∧ ro.item_id ∉ excludedIds
  · rw [if_pos hc] at hmap
    rw [Option.map_eq_some'] at hmap
    obtain ⟨it, hit, heq⟩ := hmap
    have hid : it.id = ro.item_id := findItem_id items ro.item_id it hit
    subst heq
    exact ⟨by rw [hid]; exact hit, by rw [hid]; exact hc.2, ro, hro, rfl⟩
  · rw [if_neg hc] at hmap
    cases hmap

theorem addSalvageRow_wf (items : List Item) (excludedIds : List String) (materialId : String)
    (gs : List (String × SourceGroup)) (row : Item × ℚ)
    (h1 : findItem items row.1.id = some row.1) (h2 : row.1.id ∉ excludedIds)
    (hwf : GroupsWF items excludedIds gs) :
    GroupsWF items excludedIds (addSalvageRow materialId gs row) := by
  intro p hp
  unfold addSalvageRow at hp
  rcases mem_mapSet_elim _ _ _ p hp with heq | hmem
  · subst heq
    cases hg : mapGet gs (getBaseName row.1.name) with
    | none =>
      simp only [hg, Option.getD, List.any_nil, Bool.false_eq_true, if_false, List.nil_append]
      refine ⟨by simp, by trivial, ?_⟩
      intro it hit
      rw [List.mem_singleton] at hit
      subst hit
      exact ⟨h1, rfl, h2⟩
    | some group =>
      obtain ⟨hne, hbn, hits⟩ := hwf (getBaseName row.1.name, group) (mem_of_mapGet_eq_some _ _ _ hg)
      simp only [hg, Option.getD]
      by_cases hany : group.items.any (fun it => it.id = row.1.id)
      · simpa [hany] using ⟨hne, hbn, hits⟩
      · simp only [hany, if_false, Bool.false_eq_true]
        refine ⟨by simp [hne], hbn, ?_⟩
        intro it hit
        rcases List.mem_append.mp hit with hin | hin
        · exact hits it hin
        · rw [List.mem_singleton] at hin
          subst hin
          exact ⟨h1, rfl, h2⟩
  · exact hwf p hmem

theorem addRecycleRow_wf (items : List Item) (excludedIds : List String) (materialId : String)
    (gs : List (String × SourceGroup)) (row : Item × ℚ)
    (h1 : findItem items row.1.id = some row.1) (h2 : row.1.id ∉ excludedIds)
    (hwf : GroupsWF items excludedIds gs) :
    GroupsWF items excludedIds (addRecycleRow materialId gs row) := by
  intro p hp
  unfold addRecycleRow at hp
  rcases mem_mapSet_elim _ _ _ p hp with heq | hmem
  · subst heq
    cases hg : mapGet gs (getBaseName row.1.name) with
    | none =>
      simp only [hg, Option.getD, List.any_nil, Bool.false_eq_true, if_false, List.nil_append]
      refine ⟨by simp, by trivial, ?_⟩
      intro it hit
      rw [List.mem_singleton] at hit
      subst hit
      exact ⟨h1, rfl, h2⟩
    | some group =>
      obtain ⟨hne, hbn, hits⟩ := hwf (getBaseName row.1.name, group) (mem_of_mapGet_eq_some _ _ _ hg)
      simp only [hg, Option.getD]
      by_cases hany : group.items.any (fun it => it.id = row.1.id)
      · simpa [hany] using ⟨hne, hbn, hits⟩
      · simp only [hany, if_false, Bool.false_eq_true]
        refine ⟨by simp [hne], hbn, ?_⟩
        intro it hit
        rcases List.mem_append.mp hit with hin | hin
        · exact hits it hin
        · rw [List.mem_singleton] at hin
          subst hin
          exact ⟨h1, rfl, h2⟩
  · exact hwf p hmem

theorem collectGroups_wf (items : List Item) (so : List SalvagingOutput)
    (ro : List RecyclingOutput) (materialIds excludedIds : List String) :
    GroupsWF items excludedIds (collectGroups items so ro materialIds excludedIds) := by
  unfold collectGroups
  refine foldl_preserves (GroupsWF items excludedIds) _ materialIds _ ?_ ?_
  · intro gs mid hmid hwf
    refine foldl_preserves (GroupsWF items excludedIds) _ _ gs ?_ hwf
    intro gs2 row hrow hwf2
    obtain ⟨hr1, hr2, _⟩ := mem_recycleRowsFor items ro mid excludedIds row hrow
    exact addRecycleRow_wf items excludedIds mid gs2 row hr1 hr2 hwf2
  · refine foldl_preserves (GroupsWF items excludedIds) _ materialIds [] ?_ ?_
    · intro gs mid hmid hwf
      refine foldl_preserves (GroupsWF items excludedIds) _ _ gs ?_ hwf
      intro gs2 row hrow hwf2
      obtain ⟨hr1, hr2, _⟩ := mem_salvageRowsFor items so mid excludedIds row hrow
      exact addSalvageRow_wf items excludedIds mid gs2 row hr1 hr2 hwf2
    · intro p hp
      exact absurd hp (List.not_mem_nil p)

theorem buildSource_fields (items : List Item) (scoringMethod : ScoringMethod)
    (qty : List (String × ℚ)) (td : ℚ) (group : SourceGroup) (src : SalvagingSource)
    (h : buildSource items scoringMethod qty td group = some src) :
    src.item = group.items.headI ∧ src.baseName = group.baseName
    ∧ src.salvageYields = avgYields group.salvageYieldsMap group.items.length qty
    ∧ src.recycleYields = avgYields group.recycleYieldsMap group.items.length qty := by
  unfold buildSource at h
  by_cases hc : group.salvageYieldsMap.length = 0 ∧ group.recycleYieldsMap.length = 0
  · rw [if_pos hc] at h
    cases h
  · rw [if_neg hc] at h
    injection h with h
    subst h
    exact ⟨rfl, rfl, rfl, rfl⟩

theorem mem_aggregateAllSources (bookmarkedIds : List String) (db : Database)
    (scoringMethod : ScoringMethod) (filterOptions : MaterialFilterOptions)
    (source : SalvagingSource)
    (h : source ∈ aggregateAllSources bookmarkedIds db scoringMethod filterOptions) :
    ∃ p ∈ collectGroups db.items db.salvaging_outputs db.recycling_outputs
        (mapKeys (resolveDemand bookmarkedIds db filterOptions).materialQuantityMap)
        (bookmarkedIds ++
          mapKeys (resolveDemand bookmarkedIds db filterOptions).materialQuantityMap ++
          filterOptions.hiddenSourceItems),
      buildSource db.items scoringMethod
        (resolveDemand bookmarkedIds db filterOptions).materialQuantityMap
        (sumVals (resolveDemand bookmarkedIds db filterOptions).materialQuantityMap)
        p.2 = some source := by
  simp only [aggregateAllSources, buildAllSources, List.mem_filterMap] at h
  exact h

theorem processRecipe_inv (db : Database) (filterOptions : MaterialFilterOptions)
    (itemId : String) (st : DemandState) (recipe : CraftingRecipe)
    (h : CacheOK db st ∧ QtyKeysCached st) :
    CacheOK db (processRecipe db filterOptions itemId st recipe)
      ∧ QtyKeysCached (processRecipe db filterOptions itemId st recipe) := by
  obtain ⟨hc, hq⟩ := h
  have hstep : ∀ im2 : List (String × Item),
      (∀ k2 it, mapGet im2 k2 = some it → db.itemById k2 = some it) →
      (∀ k2, (mapGet st.materialItemsMap k2).isSome → (mapGet im2 k2).isSome) →
      CacheOK db { st with materialItemsMap := im2 }
        ∧ QtyKeysCached { st with materialItemsMap := im2 } := by
    intro im2 hA hB
    exact ⟨fun k2 it hit => hA k2 it hit, fun k2 hs => hB k2 (hq k2 hs)⟩
  have hsplit : ∀ im2 : List (String × Item),
      (∀ k2 it, mapGet im2 k2 = some it → db.itemById k2 = some it) →
      (∀ k2, (mapGet st.materialItemsMap k2).isSome → (mapGet im2 k2).isSome) →
      (mapGet im2 recipe.ingredient_id).isSome →
      CacheOK db
          { materialQuantityMap :=
              mapSet st.materialQuantityMap recipe.ingredient_id
                ((mapGet st.materialQuantityMap recipe.ingredient_id).getD 0 + recipe.quantity)
            materialRequiredByMap :=
              mapSet st.materialRequiredByMap recipe.ingredient_id
                (addUnique ((mapGet st.materialRequiredByMap recipe.ingredient_id).getD []) itemId)
            materialItemsMap := im2 }
        ∧ QtyKeysCached
          { materialQuantityMap :=
              mapSet st.materialQuantityMap recipe.ingredient_id
                ((mapGet st.materialQuantityMap recipe.ingredient_id).getD 0 + recipe.quantity)
            materialRequiredByMap :=
              mapSet st.materialRequiredByMap recipe.ingredient_id
                (addUnique ((mapGet st.materialRequiredByMap recipe.ingredient_id).getD []) itemId)
            materialItemsMap := im2 } := by
    intro im2 hA hB hsome
    refine ⟨fun k2 it hit => hA k2 it hit, fun k2 hs => ?_⟩
    by_cases hkk : k2 = recipe.ingredient_id
    · subst hkk
      exact hsome
    · rw [mapGet_mapSet_of_ne st.materialQuantityMap recipe.ingredient_id k2 _ hkk] at hs
      exact hB k2 (hq k2 hs)
  simp only [processRecipe]
  cases hhas : mapHas st.materialItemsMap recipe.ingredient_id with
  | true =>
    simp only [reduceIte]
    cases hmg : mapGet st.materialItemsMap recipe.ingredient_id with
    | none => exact hstep st.materialItemsMap hc (fun k2 hs => hs)
    | some mi =>
      simp only []
      by_cases hinc : shouldIncludeMaterial mi filterOptions = true
      · rw [if_neg (fun hcon => hcon hinc)]
        exact hsplit st.materialItemsMap hc (fun k2 hs => hs) (by rw [hmg]; rfl)
      · rw [if_pos hinc]
        exact hstep st.materialItemsMap hc (fun k2 hs => hs)
  | false =>
    simp only [Bool.false_eq_true, if_false]
    cases hdb : db.itemById recipe.ingredient_id with
    | none =>
      cases hmg : mapGet st.materialItemsMap recipe.ingredient_id with
      | none => exact hstep st.materialItemsMap hc (fun k2 hs => hs)
      | some mi => exact absurd (hc recipe.ingredient_id mi hmg) (by simp [hdb])
    | some mi =>
      have hA : ∀ k2 it, mapGet (mapSet st.materialItemsMap recipe.ingredient_id mi) k2 = some it →
          db.itemById k2 = some it := by
        intro k2 it hit
        by_cases hkk : k2 = recipe.ingredient_id
        · subst hkk
          rw [mapGet_mapSet_self] at hit
          rw [← Option.some.inj hit]
          exact hdb
        · rw [mapGet_mapSet_of_ne st.materialItemsMap recipe.ingredient_id k2 mi hkk] at hit
          exact hc k2 it hit
      have hB : ∀ k2, (mapGet st.materialItemsMap k2).isSome →
          (mapGet (mapSet st.materialItemsMap recipe.ingredient_id mi) k2).isSome := by
        intro k2 hs
        by_cases hkk : k2 = recipe.ingredient_id
        · subst hkk
          rw [mapGet_mapSet_self]
          rfl
        · rw [mapGet_mapSet_of_ne st.materialItemsMap recipe.ingredient_id k2 mi hkk]
          exact hs
      rw [mapGet_mapSet_self st.materialItemsMap recipe.ingredient_id mi]
      simp only []
      by_cases hinc : shouldIncludeMaterial mi filterOptions = true
      · rw [if_neg (fun hcon => hcon hinc)]
        exact hsplit (mapSet st.materialItemsMap recipe.ingredient_id mi) hA hB
          (by rw [mapGet_mapSet_self]; rfl)
      · rw [if_pos hinc]
        exact hstep (mapSet st.materialItemsMap recipe.ingredient_id mi) hA hB

theorem resolveDemand_inv (bookmarkedIds : List String) (db : Database)
    (filterOptions : MaterialFilterOptions) :
    CacheOK db (resolveDemand bookmarkedIds db filterOptions)
      ∧ QtyKeysCached (resolveDemand bookmarkedIds db filterOptions) := by
  unfold resolveDemand
  refine foldl_preserves (fun st => CacheOK db st ∧ QtyKeysCached st) _ bookmarkedIds _ ?_ ?_
  · intro st b hb hst
    unfold processBookmark
    by_cases hp : b ∈ filterOptions.pausedBookmarks
    · simpa [hp] using hst
    · simp only [hp, if_false]
      refine foldl_preserves (fun st => CacheOK db st ∧ QtyKeysCached st) _ _ st ?_ hst
      intro st2 r hr hst2
      exact processRecipe_inv db filterOptions b st2 r hst2
  · constructor
    · intro k it hit
      cases hit
    · intro k hs
      cases hs

theorem materials_eq (bookmarkedIds : List String) (db : Database)
    (scoringMethod : ScoringMethod) (filterOptions : MaterialFilterOptions) :
    (aggregateMaterials bookmarkedIds db scoringMethod filterOptions).materials =
      sortDescBy (fun m => m.totalQuantity)
        (buildMaterials (resolveDemand bookmarkedIds db filterOptions)) := rfl

theorem materials_ids_in_qtyKeys (bookmarkedIds : List String) (db : Database)
    (filterOptions : MaterialFilterOptions) (m : MaterialRequirement)
    (hm : m ∈ sortDescBy (fun m => m.totalQuantity)
      (buildMaterials (resolveDemand bookmarkedIds db filterOptions))) :
    m.item.id ∈ mapKeys (resolveDemand bookmarkedIds db filterOptions).materialQuantityMap := by
  rw [mem_sortDescBy] at hm
  unfold buildMaterials at hm
  rw [List.mem_filterMap] at hm
  obtain ⟨p, hp, hmap⟩ := hm
  rw [Option.map_eq_some'] at hmap
  obtain ⟨item, hitem, heq⟩ := hmap
  have hdb := (resolveDemand_inv bookmarkedIds db filterOptions).1 p.1 item hitem
  have hid : item.id = p.1 := findItem_id db.items p.1 item hdb
  subst heq
  rw [hid]
  exact List.mem_map.mpr ⟨p, hp, rfl⟩

/-! ## Partition lemmas -/

theorem salvageSources_eq (bookmarkedIds : List String) (db : Database)
    (scoringMethod : ScoringMethod) (filterOptions : MaterialFilterOptions) :
    (aggregateMaterials bookmarkedIds db scoringMethod filterOptions).salvageSources =
      sortDescBy (fun s => s.salvageScore)
        ((aggregateAllSources bookmarkedIds db scoringMethod filterOptions).filter
          sentToSalvage) := rfl

theorem recycleSources_eq (bookmarkedIds : List String) (db : Database)
    (scoringMethod : ScoringMethod) (filterOptions : MaterialFilterOptions) :
    (aggregateMaterials bookmarkedIds db scoringMethod filterOptions).recycleSources =
      sortDescBy (fun s => s.recycleScore)
        ((aggregateAllSources bookmarkedIds db scoringMethod filterOptions).filter
          sentToRecycle) := rfl

theorem mem_salvageSources_iff (bookmarkedIds : List String) (db : Database)
    (scoringMethod : ScoringMethod) (filterOptions : MaterialFilterOptions)
    (source : SalvagingSource) :
    source ∈ (aggregateMaterials bookmarkedIds db scoringMethod filterOptions).salvageSources ↔
      source ∈ aggregateAllSources bookmarkedIds db scoringMethod filterOptions
        ∧ sentToSalvage source = true := by
  rw [salvageSources_eq, mem_sortDescBy, List.mem_filter]

theorem mem_recycleSources_iff (bookmarkedIds : List String) (db : Database)
    (scoringMethod : ScoringMethod) (filterOptions : MaterialFilterOptions)
    (source : SalvagingSource) :
    source ∈ (aggregateMaterials bookmarkedIds db scoringMethod filterOptions).recycleSources ↔
      source ∈ aggregateAllSources bookmarkedIds db scoringMethod filterOptions
        ∧ sentToRecycle source = true := by
  rw [recycleSources_eq, mem_sortDescBy, List.mem_filter]

theorem not_sentToSalvage_and_sentToRecycle (source : SalvagingSource) :
    ¬ (sentToSalvage source = true ∧ sentToRecycle source = true) := by
  unfold sentToSalvage sentToRecycle
  split_ifs <;> simp_all

theorem sent_of_both_pos (source : SalvagingSource) (hs : 0 < source.salvageScore)
    (hr : 0 < source.recycleScore) :
    (sentToRecycle source = true ↔
      RECYCLING_THRESHOLD < source.recycleScore / source.salvageScore)
    ∧ (sentToSalvage source = true ↔
      ¬ RECYCLING_THRESHOLD < source.recycleScore / source.salvageScore) := by
  constructor <;>
    simp [sentToSalvage, sentToRecycle, ne_of_gt hs, ne_of_gt hr, hs.ne', hr.ne']

theorem sent_of_salvage_zero (source : SalvagingSource) (hs : source.salvageScore = 0)
    (hr : 0 < source.recycleScore) :
    sentToRecycle source = true ∧ sentToSalvage source = false := by
  constructor <;> simp [sentToSalvage, sentToRecycle, hs, hr, hr.ne']

theorem sent_of_recycle_zero (source : SalvagingSource) (hr : source.recycleScore = 0)
    (hs : 0 < source.salvageScore) :
    sentToSalvage source = true ∧ sentToRecycle source = false := by
  constructor <;> simp [sentToSalvage, sentToRecycle, hr, hs, hs.ne']

/-! ## Non-negativity lemmas for the scoring formulas -/

theorem jsRound_nonneg (q : ℚ) (h : 0 ≤ q) : 0 ≤ jsRound q := by
  unfold jsRound
  have : (0:ℤ) ≤ ⌊q + 1/2⌋ := by
    rw [Int.le_floor]
    push_cast
    linarith
  exact_mod_cast this

theorem mapGetD_nonneg (m : List (String × ℚ)) (k : String)
    (h : ∀ p ∈ m, 0 ≤ p.2) : 0 ≤ (mapGet m k).getD 0 := by
  cases hg : mapGet m k with
  | none => simp
  | some v =>
    simp only [Option.getD]
    exact h (k, v) (mem_of_mapGet_eq_some m k v hg)

theorem avgYields_nonneg (yieldsMap : List (String × ℚ)) (memberCount : ℕ)
    (qty : List (String × ℚ)) (h : ∀ p ∈ yieldsMap, 0 ≤ p.2) :
    ∀ p ∈ avgYields yieldsMap memberCount qty, 0 ≤ p.2 := by
  unfold avgYields
  refine foldl_preserves (fun acc : List (String × ℚ) => ∀ p ∈ acc, 0 ≤ p.2) _ yieldsMap [] ?_ ?_
  · intro acc q hq hacc p hp
    by_cases hhas : mapHas qty q.1
    · simp only [hhas, if_true] at hp
      rcases mem_mapSet_elim _ _ _ p hp with heq | hmem
      · subst heq
        exact jsRound_nonneg _ (div_nonneg (h q hq) (by positivity))
      · exact hacc p hmem
    · simp only [hhas, Bool.false_eq_true, if_false] at hp
      exact hacc p hp
  · intro p hp
    cases hp

theorem baseScoreOf_nonneg (avg : List (String × ℚ)) (qty : List (String × ℚ)) (td : ℚ)
    (havg : ∀ p ∈ avg, 0 ≤ p.2) (hqty : ∀ p ∈ qty, 0 ≤ p.2) :
    0 ≤ baseScoreOf avg qty td := by
  unfold baseScoreOf
  split_ifs with hguard
  · refine List.sum_nonneg ?_
    intro x hx
    rw [List.mem_map] at hx
    obtain ⟨p, hp, hpx⟩ := hx
    subst hpx
    exact mul_nonneg (havg p hp) (div_nonneg (mapGetD_nonneg qty p.1 hqty) hguard.1.le)
  · exact le_refl 0

theorem totalYieldWeightOf_nonneg (avg : List (String × ℚ)) (items : List Item)
    (havg : ∀ p ∈ avg, 0 ≤ p.2) (hitems : ∀ it ∈ items, 0 ≤ it.weight_kg ∧ 0 ≤ it.value) :
    0 ≤ totalYieldWeightOf avg items := by
  unfold totalYieldWeightOf
  refine List.sum_nonneg ?_
  intro x hx
  rw [List.mem_map] at hx
  obtain ⟨p, hp, hpx⟩ := hx
  subst hpx
  cases hf : findItem items p.1 with
  | none => simp [hf]
  | some mi =>
    simp only [hf]
    exact mul_nonneg (havg p hp) (hitems mi (findItem_mem items p.1 mi hf)).1

theorem carryWeightPenalty_pos (weight : ℚ) : 0 < carryWeightPenalty weight :=
  lt_of_lt_of_le (by norm_num) (le_max_left (3/10) (1 - weight / 10))

theorem valueBonus_nonneg (value : ℚ) (h : 0 ≤ value) : 0 ≤ valueBonus value := by
  unfold valueBonus
  have h1 : (0:ℚ) ≤ 13/10 := by norm_num
  have h2 : (0:ℚ) ≤ 1 + (value / 5000) * (1/10) := by positivity
  exact le_min h1 h2

theorem multiMaterialBonus_pos (numMaterials : ℕ) : 0 < multiMaterialBonus numMaterials := by
  unfold multiMaterialBonus
  exact zpow_pos (by norm_num) _

theorem slotBonusOf_pos (slotEfficiency : ℚ) : 0 < slotBonusOf slotEfficiency :=
  lt_of_lt_of_le one_pos (le_max_left 1 _)

theorem salvageScoreCalc_nonneg (salvageBaseScore effectiveWeight : ℚ) (rarity : String)
    (slotBonus : ℚ) (scoringMethod : ScoringMethod) (hb : 0 ≤ salvageBaseScore)
    (he : 0 ≤ effectiveWeight) (hsb : 0 ≤ slotBonus) :
    0 ≤ salvageScoreCalc salvageBaseScore effectiveWeight rarity slotBonus scoringMethod := by
  unfold salvageScoreCalc
  have hwf : 0 ≤ (if scoringMethod = ScoringMethod.weight_conscious
      then effectiveWeight ^ 2 else effectiveWeight) := by
    split_ifs
    · positivity
    · exact he
  have hIB : (0:ℚ) ≤ IMMEDIACY_BONUS := by norm_num [IMMEDIACY_BONUS]
  exact mul_nonneg (mul_nonneg (mul_nonneg (div_nonneg hb hwf)
    (RARITY_SALVAGE_PENALTY_pos rarity).le) hIB) hsb

theorem recycleScoreCalc_nonneg (recycleBaseScore : ℚ) (representativeItem : Item)
    (numMaterials : ℕ) (scoringMethod : ScoringMethod) (hb : 0 ≤ recycleBaseScore)
    (hw : 0 ≤ representativeItem.weight_kg) (hv : 0 ≤ representativeItem.value) :
    0 ≤ recycleScoreCalc recycleBaseScore representativeItem numMaterials scoringMethod := by
  unfold recycleScoreCalc
  have hCP : (0:ℚ) ≤ COMPLEXITY_PENALTY := by norm_num [COMPLEXITY_PENALTY]
  split_ifs
  · exact mul_nonneg (mul_nonneg (mul_nonneg (div_nonneg hb hw)
      (RARITY_RECYCLE_BONUS_pos representativeItem.rarity).le)
      (multiMaterialBonus_pos numMaterials).le) hCP
  · refine mul_nonneg (mul_nonneg (mul_nonneg (mul_nonneg (mul_nonneg
      (div_nonneg hb (by positivity))
      (RARITY_RECYCLE_BONUS_pos representativeItem.rarity).le)
      (multiMaterialBonus_pos numMaterials).le)
      (carryWeightPenalty_pos representativeItem.weight_kg).le)
      (valueBonus_nonneg representativeItem.value hv)) hCP

theorem buildSource_scores (items : List Item) (scoringMethod : ScoringMethod)
    (qty : List (String × ℚ)) (td : ℚ) (group : SourceGroup) (src : SalvagingSource)
    (h : buildSource items scoringMethod qty td group = some src) :
    src.salvageScore = salvageScoreCalc
        (baseScoreOf (avgYields group.salvageYieldsMap group.items.length qty) qty td)
        (if 0 < totalYieldWeightOf (avgYields group.salvageYieldsMap group.items.length qty) items
          then totalYieldWeightOf (avgYields group.salvageYieldsMap group.items.length qty) items
          else group.items.headI.weight_kg)
        group.items.headI.rarity
        (slotBonusOf (calculateSlotEfficiency group.items.headI
          (avgYields group.salvageYieldsMap group.items.length qty) items))
        scoringMethod
    ∧ src.recycleScore = recycleScoreCalc
        (baseScoreOf (avgYields group.recycleYieldsMap group.items.length qty) qty td)
        group.items.headI
        (avgYields group.recycleYieldsMap group.items.length qty).length scoringMethod
      * slotBonusOf (calculateSlotEfficiency group.items.headI
          (avgYields group.recycleYieldsMap group.items.length qty) items) := by
  unfold buildSource at h
  by_cases hc : group.salvageYieldsMap.length = 0 ∧ group.recycleYieldsMap.length = 0
  · rw [if_pos hc] at h
    cases h
  · rw [if_neg hc] at h
    injection h with h
    subst h
    exact ⟨rfl, rfl⟩

/-! ## Non-negativity invariants of the folds -/

theorem processRecipe_qty (db : Database) (filterOptions : MaterialFilterOptions)
    (itemId : String) (st : DemandState) (recipe : CraftingRecipe) :
    (processRecipe db filterOptions itemId st recipe).materialQuantityMap =
        st.materialQuantityMap
    ∨ (processRecipe db filterOptions itemId st recipe).materialQuantityMap =
        mapSet st.materialQuantityMap recipe.ingredient_id
          ((mapGet st.materialQuantityMap recipe.ingredient_id).getD 0 + recipe.quantity) := by
  simp only [processRecipe]
  cases hhas : mapHas st.materialItemsMap recipe.ingredient_id with
  | true =>
    simp only [reduceIte]
    cases hmg : mapGet st.materialItemsMap recipe.ingredient_id with
    | none => exact Or.inl rfl
    | some mi =>
      simp only []
      by_cases hinc : shouldIncludeMaterial mi filterOptions = true
      · rw [if_neg (fun hcon => hcon hinc)]
        exact Or.inr rfl
      · rw [if_pos hinc]
        exact Or.inl rfl
  | false =>
    simp only [Bool.false_eq_true, if_false]
    cases hdb : db.itemById recipe.ingredient_id with
    | none =>
      cases hmg : mapGet st.materialItemsMap recipe.ingredient_id with
      | none => exact Or.inl rfl
      | some mi => simp [mapHas, hmg] at hhas
    | some mi =>
      rw [mapGet_mapSet_self st.materialItemsMap recipe.ingredient_id mi]
      simp only []
      by_cases hinc : shouldIncludeMaterial mi filterOptions = true
      · rw [if_neg (fun hcon => hcon hinc)]
        exact Or.inr rfl
      · rw [if_pos hinc]
        exact Or.inl rfl

theorem resolveDemand_qty_nonneg (bookmarkedIds : List String) (db : Database)
    (filterOptions : MaterialFilterOptions)
    (hdb : ∀ r ∈ db.crafting_recipes, 0 ≤ r.quantity) :
    QtyNonneg (resolveDemand bookmarkedIds db filterOptions) := by
  unfold resolveDemand
  refine foldl_preserves QtyNonneg _ bookmarkedIds _ ?_ ?_
  · intro st b hb hst
    unfold processBookmark
    by_cases hp : b ∈ filterOptions.pausedBookmarks
    · simpa [hp] using hst
    · simp only [hp, if_false]
      refine foldl_preserves QtyNonneg _ _ st ?_ hst
      intro st2 r hr hst2
      have hrq : 0 ≤ r.quantity := by
        refine hdb r ?_
        have : r ∈ db.crafting_recipes.filter (fun rr => rr.item_id = b) := hr
        exact List.mem_of_mem_filter this
      rcases processRecipe_qty db filterOptions b st2 r with heq | heq
      · intro p hp2
        rw [heq] at hp2
        exact hst2 p hp2
      · intro p hp2
        rw [heq] at hp2
        rcases mem_mapSet_elim _ _ _ p hp2 with h1 | h1
        · subst h1
          exact add_nonneg (mapGetD_nonneg _ _ hst2) hrq
        · exact hst2 p h1
  · intro p hp
    cases hp

theorem addSalvageRow_nonneg (materialId : String) (gs : List (String × SourceGroup))
    (row : Item × ℚ) (hrq : 0 ≤ row.2) (hgs : GroupsNonneg gs) :
    GroupsNonneg (addSalvageRow materialId gs row) := by
  intro p hp
  unfold addSalvageRow at hp
  rcases mem_mapSet_elim _ _ _ p hp with heq | hmem
  · subst heq
    cases hg : mapGet gs (getBaseName row.1.name) with
    | none =>
      simp only [hg, Option.getD]
      refine ⟨?_, ?_⟩
      · intro q hq
        rcases mem_mapSet_elim _ _ _ q hq with h1 | h1
        · subst h1
          simpa using add_nonneg (by simp [mapGet]) hrq
        · cases h1
      · intro q hq
        cases hq
    | some group =>
      obtain ⟨hsy, hry⟩ := hgs (getBaseName row.1.name, group) (mem_of_mapGet_eq_some _ _ _ hg)
      simp only [hg, Option.getD]
      refine ⟨?_, hry⟩
      intro q hq
      rcases mem_mapSet_elim _ _ _ q hq with h1 | h1
      · subst h1
        exact add_nonneg (mapGetD_nonneg _ _ hsy) hrq
      · exact hsy q h1
  · exact hgs p hmem

theorem addRecycleRow_nonneg (materialId : String) (gs : List (String × SourceGroup))
    (row : Item × ℚ) (hrq : 0 ≤ row.2) (hgs : GroupsNonneg gs) :
    GroupsNonneg (addRecycleRow materialId gs row) := by
  intro p hp
  unfold addRecycleRow at hp
  rcases mem_mapSet_elim _ _ _ p hp with heq | hmem
  · subst heq
    cases hg : mapGet gs (getBaseName row.1.name) with
    | none =>
      simp only [hg, Option.getD]
      refine ⟨?_, ?_⟩
      · intro q hq
        cases hq
      · intro q hq
        rcases mem_mapSet_elim _ _ _ q hq with h1 | h1
        · subst h1
          simpa using add_nonneg (by simp [mapGet]) hrq
        · cases h1
    | some group =>
      obtain ⟨hsy, hry⟩ := hgs (getBaseName row.1.name, group) (mem_of_mapGet_eq_some _ _ _ hg)
      simp only [hg, Option.getD]
      refine ⟨hsy, ?_⟩
      intro q hq
      rcases mem_mapSet_elim _ _ _ q hq with h1 | h1
      · subst h1
        exact add_nonneg (mapGetD_nonneg _ _ hry) hrq
      · exact hry q h1
  · exact hgs p hmem

theorem collectGroups_nonneg (items : List Item) (so : List SalvagingOutput)
    (ro : List RecyclingOutput) (materialIds excludedIds : List String)
    (hso : ∀ o ∈ so, 0 ≤ o.quantity) (hro : ∀ o ∈ ro, 0 ≤ o.quantity) :
    GroupsNonneg (collectGroups items so ro materialIds excludedIds) := by
  unfold collectGroups
  refine foldl_preserves GroupsNonneg _ materialIds _ ?_ ?_
  · intro gs mid hmid hgs
    refine foldl_preserves GroupsNonneg _ _ gs ?_ hgs
    intro gs2 row hrow hgs2
    obtain ⟨-, -, o, ho, hoq⟩ := mem_recycleRowsFor items ro mid excludedIds row hrow
    exact addRecycleRow_nonneg mid gs2 row (hoq ▸ hro o ho) hgs2
  · refine foldl_preserves GroupsNonneg _ materialIds [] ?_ ?_
    · intro gs mid hmid hgs
      refine foldl_preserves GroupsNonneg _ _ gs ?_ hgs
      intro gs2 row hrow hgs2
      obtain ⟨-, -, o, ho, hoq⟩ := mem_salvageRowsFor items so mid excludedIds row hrow
      exact addSalvageRow_nonneg mid gs2 row (hoq ▸ hso o ho) hgs2
    · intro p hp
      cases hp

theorem processBookmark_inv (db : Database) (filterOptions : MaterialFilterOptions)
    (st : DemandState) (b : String) (hst : CacheOK db st ∧ QtyKeysCached st) :
    CacheOK db (processBookmark db filterOptions st b)
      ∧ QtyKeysCached (processBookmark db filterOptions st b) := by
  unfold processBookmark
  by_cases hp : b ∈ filterOptions.pausedBookmarks
  · simpa [hp] using hst
  · simp only [hp, if_false]
    refine foldl_preserves (fun st => CacheOK db st ∧ QtyKeysCached st) _ _ st ?_ hst
    intro st2 r hr hst2
    exact processRecipe_inv db filterOptions b st2 r hst2

theorem processRecipe_qtySum (db : Database) (filterOptions : MaterialFilterOptions)
    (itemId : String) (st : DemandState) (recipe : CraftingRecipe) (hc : CacheOK db st) :
    sumVals (processRecipe db filterOptions itemId st recipe).materialQuantityMap
      = sumVals st.materialQuantityMap + edgeContribution db filterOptions recipe := by
  simp only [processRecipe]
  cases hhas : mapHas st.materialItemsMap recipe.ingredient_id with
  | true =>
    simp only [reduceIte]
    cases hmg : mapGet st.materialItemsMap recipe.ingredient_id with
    | none => simp [mapHas, hmg] at hhas
    | some mi =>
      have hdb := hc _ _ hmg
      simp only []
      by_cases hinc : shouldIncludeMaterial mi filterOptions = true
      · rw [if_neg (fun hcon => hcon hinc)]
        show sumVals (mapSet st.materialQuantityMap recipe.ingredient_id
            ((mapGet st.materialQuantityMap recipe.ingredient_id).getD 0 + recipe.quantity))
          = sumVals st.materialQuantityMap + edgeContribution db filterOptions recipe
        rw [sumVals_mapSet]
        simp only [edgeContribution, hdb, hinc, if_true]
        ring
      · rw [if_pos hinc]
        show sumVals st.materialQuantityMap
          = sumVals st.materialQuantityMap + edgeContribution db filterOptions recipe
        simp [edgeContribution, hdb, hinc]
  | false =>
    simp only [Bool.false_eq_true, if_false]
    cases hdb : db.itemById recipe.ingredient_id with
    | none =>
      cases hmg : mapGet st.materialItemsMap recipe.ingredient_id with
      | none =>
        show sumVals st.materialQuantityMap
          = sumVals st.materialQuantityMap + edgeContribution db filterOptions recipe
        simp [edgeContribution, hdb]
      | some mi => simp [mapHas, hmg] at hhas
    | some mi =>
      rw [mapGet_mapSet_self st.materialItemsMap recipe.ingredient_id mi]
      simp only []
      by_cases hinc : shouldIncludeMaterial mi filterOptions = true
      · rw [if_neg (fun hcon => hcon hinc)]
        show sumVals (mapSet st.materialQuantityMap recipe.ingredient_id
            ((mapGet st.materialQuantityMap recipe.ingredient_id).getD 0 + recipe.quantity))
          = sumVals st.materialQuantityMap + edgeContribution db filterOptions recipe
        rw [sumVals_mapSet]
        simp only [edgeContribution, hdb, hinc, if_true]
        ring
      · rw [if_pos hinc]
        show sumVals st.materialQuantityMap
          = sumVals st.materialQuantityMap + edgeContribution db filterOptions recipe
        simp [edgeContribution, hdb, hinc]

theorem foldRecipes_qtySum (db : Database) (filterOptions : MaterialFilterOptions) (b : String)
    (rs : List CraftingRecipe) (st : DemandState)
    (hst : CacheOK db st ∧ QtyKeysCached st) :
    sumVals ((rs.foldl (processRecipe db filterOptions b) st)).materialQuantityMap
      = sumVals st.materialQuantityMap
        + (rs.map (edgeContribution db filterOptions)).sum := by
  induction rs generalizing st with
  | nil => simp
  | cons r rs ih =>
    simp only [List.foldl_cons, List.map_cons, List.sum_cons]
    rw [ih (processRecipe db filterOptions b st r)
      (processRecipe_inv db filterOptions b st r hst)]
    rw [processRecipe_qtySum db filterOptions b st r hst.1]
    ring

theorem processBookmark_qtySum (db : Database) (filterOptions : MaterialFilterOptions)
    (st : DemandState) (b : String) (hst : CacheOK db st ∧ QtyKeysCached st) :
    sumVals (processBookmark db filterOptions st b).materialQuantityMap
      = sumVals st.materialQuantityMap
        + (if b ∈ filterOptions.pausedBookmarks then 0
           else ((db.recipesFor b).map (edgeContribution db filterOptions)).sum) := by
  unfold processBookmark
  by_cases hp : b ∈ filterOptions.pausedBookmarks
  · simp [hp]
  · simp only [hp, if_false]
    exact foldRecipes_qtySum db filterOptions b (db.recipesFor b) st hst

theorem foldBookmarks_qtySum (db : Database) (filterOptions : MaterialFilterOptions)
    (bs : List String) (st : DemandState) (hst : CacheOK db st ∧ QtyKeysCached st) :
    sumVals (bs.foldl (processBookmark db filterOptions) st).materialQuantityMap
      = sumVals st.materialQuantityMap
        + (bs.map (fun b => if b ∈ filterOptions.pausedBookmarks then 0
            else ((db.recipesFor b).map (edgeContribution db filterOptions)).sum)).sum := by
  induction bs generalizing st with
  | nil => simp
  | cons b bs ih =>
    simp only [List.foldl_cons, List.map_cons, List.sum_cons]
    rw [ih (processBookmark db filterOptions st b)
      (processBookmark_inv db filterOptions st b hst)]
    rw [processBookmark_qtySum db filterOptions st b hst]
    ring

theorem resolveDemand_qtySum (bookmarkedIds : List String) (db : Database)
    (filterOptions : MaterialFilterOptions) :
    sumVals (resolveDemand bookmarkedIds db filterOptions).materialQuantityMap
      = (bookmarkedIds.map (fun b => if b ∈ filterOptions.pausedBookmarks then 0
          else ((db.recipesFor b).map (edgeContribution db filterOptions)).sum)).sum := by
  unfold resolveDemand
  rw [foldBookmarks_qtySum db filterOptions bookmarkedIds ⟨[], [], []⟩
    ⟨fun k it hit => Option.noConfusion hit, fun k hs => Bool.noConfusion hs⟩]
  simp [sumVals]

theorem buildMaterials_sum_aux (im : List (String × Item)) (rb : List (String × List String))
    (l : List (String × ℚ)) (hsome : ∀ p ∈ l, (mapGet im p.1).isSome) :
    ((l.filterMap (fun p => (mapGet im p.1).map (fun item =>
        ({ item := item, totalQuantity := p.2,
           requiredBy := (mapGet rb p.1).getD [] } : MaterialRequirement)))).map
      (fun m => m.totalQuantity)).sum = (l.map (fun p => p.2)).sum := by
  induction l with
  | nil => simp
  | cons p l ih =>
    obtain ⟨it, hit⟩ := Option.isSome_iff_exists.mp (hsome p (List.mem_cons_self p l))
    have ihl := ih (fun q hq => hsome q (List.mem_cons_of_mem p hq))
    simp [List.filterMap_cons, hit, ihl]

theorem buildMaterials_sum (st : DemandState) (hq : QtyKeysCached st) :
    ((buildMaterials st).map (fun m => m.totalQuantity)).sum
      = sumVals st.materialQuantityMap := by
  unfold buildMaterials sumVals
  refine buildMaterials_sum_aux st.materialItemsMap st.materialRequiredByMap
    st.materialQuantityMap ?_
  intro p hp
  exact hq p.1 (mapGet_isSome_of_mem st.materialQuantityMap p.1 p.2 hp)

theorem sum_ite_filter (l paused : List String) (f : String → ℚ) :
    (l.map (fun b => if b ∈ paused then 0 else f b)).sum
      = ((l.filter (fun b => b ∉ paused)).map f).sum := by
  induction l with
  | nil => simp
  | cons b bs ih =>
    by_cases hb : b ∈ paused
    · simp [hb, ih]
    · simp [hb, ih]

/-! ## Key-uniqueness and fold lemmas for the relationship indexer -/

theorem mapGet_isSome_of_mem_keys {α : Type} (m : List (String × α)) (k : String)
    (h : k ∈ mapKeys m) : (mapGet m k).isSome := by
  induction m with
  | nil => simp [mapKeys] at h
  | cons p rest ih =>
    obtain ⟨k1, v1⟩ := p
    by_cases hk : k1 = k
    · simp [mapGet, hk]
    · simp [mapKeys, Ne.symm hk] at h
      simp [mapGet, hk]
      exact ih (by simpa [mapKeys] using h)

theorem nodup_keys_mapSet {α : Type} (m : List (String × α)) (k : String) (v : α)
    (h : (mapKeys m).Nodup) : (mapKeys (mapSet m k v)).Nodup := by
  by_cases hh : (mapGet m k).isSome
  · rw [mapKeys_mapSet_of_has m k v hh]
    exact h
  · rw [mapKeys_mapSet_of_not_has m k v hh]
    rw [List.nodup_append]
    refine ⟨h, List.nodup_singleton k, ?_⟩
    intro a ha hb
    rw [List.mem_singleton] at hb
    subst hb
    exact hh (mapGet_isSome_of_mem_keys m a ha)

theorem mem_keys_mapSet_iff {α : Type} (m : List (String × α)) (k k2 : String) (v : α) :
    k2 ∈ mapKeys (mapSet m k v) ↔ k2 ∈ mapKeys m ∨ k2 = k := by
  by_cases hh : (mapGet m k).isSome
  · rw [mapKeys_mapSet_of_has m k v hh]
    constructor
    · exact fun h => Or.inl h
    · rintro (h | h)
      · exact h
      · subst h
        exact mem_keys_of_mapGet_isSome m k2 hh
  · rw [mapKeys_mapSet_of_not_has m k v hh]
    simp

theorem unionMap_keys_nodup (entries : List (String × ℚ)) :
    (mapKeys (entries.foldl (fun m p => mapSet m p.1 p.2) [])).Nodup := by
  refine foldl_preserves (fun m : List (String × ℚ) => (mapKeys m).Nodup) _ entries [] ?_ ?_
  · intro m p hp hm
    exact nodup_keys_mapSet m p.1 p.2 hm
  · simp [mapKeys]

theorem matsOf_nodup (source : SalvagingSource) : (matsOf source).Nodup :=
  unionMap_keys_nodup (source.salvageYields ++ source.recycleYields)

theorem relsFold_pair (s : String) (ys : List (String × ℚ))
    (M0 : List (String × List String)) (acc0 : List String) :
    ys.foldl (fun st p =>
        (mapSet st.1 p.1 (addUnique ((mapGet st.1 p.1).getD []) s), addUnique st.2 p.1))
      (M0, acc0)
      = (ys.foldl (fun M p => mapSet M p.1 (addUnique ((mapGet M p.1).getD []) s)) M0,
         ys.foldl (fun acc2 p => addUnique acc2 p.1) acc0) := by
  induction ys generalizing M0 acc0 with
  | nil => rfl
  | cons p ys ih =>
    simp only [List.foldl_cons]
    exact ih _ _

theorem foldl_addUnique_fresh (ks : List String) (acc : List String)
    (hacc : ∀ k ∈ ks, k ∉ acc) (hks : ks.Nodup) :
    ks.foldl addUnique acc = acc ++ ks := by
  induction ks generalizing acc with
  | nil => simp
  | cons k ks ih =>
    rw [List.foldl_cons]
    have h1 : addUnique acc k = acc ++ [k] := by
      unfold addUnique
      rw [if_neg (hacc k (List.mem_cons_self k ks))]
    rw [h1]
    rw [List.nodup_cons] at hks
    rw [ih (acc ++ [k]) ?_ hks.2]
    · simp
    · intro k2 hk2
      rw [List.mem_append, List.mem_singleton]
      rintro (h | h)
      · exact hacc k2 (List.mem_cons_of_mem k hk2) h
      · subst h
        exact hks.1 hk2

theorem mtsFold_get (entries : List (String × ℚ)) (s : String)
    (M0 : List (String × List String)) (m : String)
    (hnd : (entries.map (fun p => p.1)).Nodup)
    (hfree : ∀ m2 ∈ entries.map (fun p => p.1), s ∉ (mapGet M0 m2).getD []) :
    mapGet (entries.foldl
        (fun M p => mapSet M p.1 (addUnique ((mapGet M p.1).getD []) s)) M0) m
      = if m ∈ entries.map (fun p => p.1)
        then some ((mapGet M0 m).getD [] ++ [s])
        else mapGet M0 m := by
  induction entries generalizing M0 with
  | nil => simp
  | cons p rest ih =>
    rw [List.map_cons, List.nodup_cons] at hnd
    have hp1free : s ∉ (mapGet M0 p.1).getD [] :=
      hfree p.1 (by simp)
    have hset : addUnique ((mapGet M0 p.1).getD []) s = (mapGet M0 p.1).getD [] ++ [s] := by
      unfold addUnique
      rw [if_neg hp1free]
    rw [List.foldl_cons, hset]
    have hfree2 : ∀ m2 ∈ rest.map (fun p => p.1),
        s ∉ (mapGet (mapSet M0 p.1 ((mapGet M0 p.1).getD [] ++ [s])) m2).getD [] := by
      intro m2 hm2
      have hne : m2 ≠ p.1 := fun h => hnd.1 (h ▸ hm2)
      rw [mapGet_mapSet_of_ne M0 p.1 m2 _ hne]
      exact hfree m2 (List.mem_cons_of_mem _ hm2)
    rw [ih (mapSet M0 p.1 ((mapGet M0 p.1).getD [] ++ [s])) hnd.2 hfree2]
    by_cases hm : m ∈ rest.map (fun p => p.1)
    · rw [if_pos hm, if_pos (by simp [hm])]
      have hne : m ≠ p.1 := fun h => hnd.1 (h ▸ hm)
      rw [mapGet_mapSet_of_ne M0 p.1 m _ hne]
    · rw [if_neg hm]
      by_cases hmp : m = p.1
      · subst hmp
        rw [if_pos (by simp)]
        rw [mapGet_mapSet_self]
      · rw [if_neg (by simp [hmp, hm])]
        rw [mapGet_mapSet_of_ne M0 p.1 m _ hmp]

theorem addSourceRels_inv (processed : List SalvagingSource) (acc : RelMaps)
    (src : SalvagingSource) (hinv : IndexerInv processed acc)
    (hfresh : ∀ src2 ∈ processed, src2.item.id ≠ src.item.id) :
    IndexerInv (processed ++ [src]) (addSourceRels acc src) := by
  obtain ⟨i1a, i1b, i2a, i2b, i3⟩ := hinv
  have hkeys : (((src.salvageYields ++ src.recycleYields).foldl
      (fun m p => mapSet m p.1 p.2) []).map (fun p => p.1)).Nodup :=
    unionMap_keys_nodup (src.salvageYields ++ src.recycleYields)
  have hfree : ∀ m2 ∈ ((src.salvageYields ++ src.recycleYields).foldl
      (fun m p => mapSet m p.1 p.2) []).map (fun p => p.1),
      src.item.id ∉ (mapGet acc.materialToSources m2).getD [] := by
    intro m2 hm2 hin
    obtain ⟨src2, hsrc2, hid, -⟩ := i2b m2 src.item.id hin
    exact hfresh src2 hsrc2 hid
  have hmats : matsOf src = ((src.salvageYields ++ src.recycleYields).foldl
      (fun m p => mapSet m p.1 p.2) []).map (fun p => p.1) := rfl
  have hprov : (((src.salvageYields ++ src.recycleYields).foldl
      (fun m p => mapSet m p.1 p.2) []).foldl (fun acc2 p => addUnique acc2 p.1) [])
      = matsOf src := by
    rw [hmats, ← List.foldl_map]
    exact foldl_addUnique_fresh _ [] (fun k hk => List.not_mem_nil k)
      (hmats ▸ matsOf_nodup src)
  have haddeq : addSourceRels acc src =
      { materialToSources := ((src.salvageYields ++ src.recycleYields).foldl
          (fun m p => mapSet m p.1 p.2) []).foldl
            (fun M p => mapSet M p.1 (addUnique ((mapGet M p.1).getD []) src.item.id))
            acc.materialToSources
        sourceToMaterials := mapSet acc.sourceToMaterials src.item.id (matsOf src) } := by
    simp only [addSourceRels]
    rw [relsFold_pair, hprov]
  rw [haddeq]
  have hget : ∀ m, mapGet (((src.salvageYields ++ src.recycleYields).foldl
      (fun m p => mapSet m p.1 p.2) []).foldl
        (fun M p => mapSet M p.1 (addUnique ((mapGet M p.1).getD []) src.item.id))
        acc.materialToSources) m
      = if m ∈ ((src.salvageYields ++ src.recycleYields).foldl
          (fun m p => mapSet m p.1 p.2) []).map (fun p => p.1)
        then some ((mapGet acc.materialToSources m).getD [] ++ [src.item.id])
        else mapGet acc.materialToSources m :=
    fun m => mtsFold_get _ src.item.id acc.materialToSources m hkeys hfree
  refine ⟨?_, ?_, ?_, ?_, ?_⟩
  · intro src2 hsrc2
    show mapGet (mapSet acc.sourceToMaterials src.item.id (matsOf src)) src2.item.id
      = some (matsOf src2)
    rcases List.mem_append.mp hsrc2 with h | h
    · rw [mapGet_mapSet_of_ne acc.sourceToMaterials src.item.id src2.item.id _
        (hfresh src2 h)]
      exact i1a src2 h
    · rw [List.mem_singleton] at h
      subst h
      exact mapGet_mapSet_self acc.sourceToMaterials src2.item.id (matsOf src2)
  · intro s2 l hl
    have hl2 : mapGet (mapSet acc.sourceToMaterials src.item.id (matsOf src)) s2 = some l := hl
    by_cases hs2 : s2 = src.item.id
    · subst hs2
      rw [mapGet_mapSet_self] at hl2
      exact ⟨src, List.mem_append_right processed (List.mem_singleton_self src), rfl,
        (Option.some.inj hl2).symm⟩
    · rw [mapGet_mapSet_of_ne acc.sourceToMaterials src.item.id s2 _ hs2] at hl2
      obtain ⟨src2, hsrc2, hid, hl3⟩ := i1b s2 l hl2
      exact ⟨src2, List.mem_append_left _ hsrc2, hid, hl3⟩
  · intro src2 hsrc2 m hm
    show src2.item.id ∈ (mapGet (((src.salvageYields ++ src.recycleYields).foldl
      (fun m p => mapSet m p.1 p.2) []).foldl
        (fun M p => mapSet M p.1 (addUnique ((mapGet M p.1).getD []) src.item.id))
        acc.materialToSources) m).getD []
    rw [hget m]
    rcases List.mem_append.mp hsrc2 with h | h
    · by_cases hmk : m ∈ ((src.salvageYields ++ src.recycleYields).foldl
          (fun m p => mapSet m p.1 p.2) []).map (fun p => p.1)
      · rw [if_pos hmk]
        exact List.mem_append_left _ (i2a src2 h m hm)
      · rw [if_neg hmk]
        exact i2a src2 h m hm
    · rw [List.mem_singleton] at h
      subst h
      rw [if_pos (hmats ▸ hm)]
      exact List.mem_append_right _ (List.mem_singleton_self src2.item.id)
  · intro m s2 hs2
    have hs2b : s2 ∈ (mapGet (((src.salvageYields ++ src.recycleYields).foldl
      (fun m p => mapSet m p.1 p.2) []).foldl
        (fun M p => mapSet M p.1 (addUnique ((mapGet M p.1).getD []) src.item.id))
        acc.materialToSources) m).getD [] := hs2
    rw [hget m] at hs2b
    by_cases hmk : m ∈ ((src.salvageYields ++ src.recycleYields).foldl
        (fun m p => mapSet m p.1 p.2) []).map (fun p => p.1)
    · rw [if_pos hmk] at hs2b
      simp only [Option.getD] at hs2b
      rcases List.mem_append.mp hs2b with h | h
      · obtain ⟨src2, hsrc2, hid, hm2⟩ := i2b m s2 h
        exact ⟨src2, List.mem_append_left _ hsrc2, hid, hm2⟩
      · rw [List.mem_singleton] at h
        subst h
        exact ⟨src, List.mem_append_right processed (List.mem_singleton_self src), rfl,
          hmats ▸ hmk⟩
    · rw [if_neg hmk] at hs2b
      obtain ⟨src2, hsrc2, hid, hm2⟩ := i2b m s2 hs2b
      exact ⟨src2, List.mem_append_left _ hsrc2, hid, hm2⟩
  · intro m
    show ((mapGet (((src.salvageYields ++ src.recycleYields).foldl
      (fun m p => mapSet m p.1 p.2) []).foldl
        (fun M p => mapSet M p.1 (addUnique ((mapGet M p.1).getD []) src.item.id))
        acc.materialToSources) m).getD []).Nodup
    rw [hget m]
    by_cases hmk : m ∈ ((src.salvageYields ++ src.recycleYields).foldl
        (fun m p => mapSet m p.1 p.2) []).map (fun p => p.1)
    · rw [if_pos hmk]
      simp only [Option.getD]
      rw [List.nodup_append]
      refine ⟨i3 m, List.nodup_singleton _, ?_⟩
      intro a ha hb
      rw [List.mem_singleton] at hb
      subst hb
      exact hfree m hmk ha
    · rw [if_neg hmk]
      exact i3 m

theorem indexer_inv_init : IndexerInv [] ⟨[], []⟩ := by
  refine ⟨?_, ?_, ?_, ?_, ?_⟩
  · intro src hsrc
    exact absurd hsrc (List.not_mem_nil src)
  · intro s l hl
    exact Option.noConfusion hl
  · intro src hsrc
    exact absurd hsrc (List.not_mem_nil src)
  · intro m s hs
    exact absurd hs (List.not_mem_nil s)
  · intro m
    exact List.nodup_nil

theorem indexer_fold_inv (L2 : List SalvagingSource) :
    ∀ (processed : List SalvagingSource) (acc : RelMaps),
    IndexerInv processed acc →
    ((processed ++ L2).map (fun s => s.item.id)).Nodup →
    IndexerInv (processed ++ L2) (L2.foldl addSourceRels acc) := by
  induction L2 with
  | nil =>
    intro processed acc h _
    simpa using h
  | cons src L2 ih =>
    intro processed acc hinv hnd
    have hfresh : ∀ src2 ∈ processed, src2.item.id ≠ src.item.id := by
      intro src2 hsrc2 heq
      have hnd2 := hnd
      rw [List.map_append, List.nodup_append] at hnd2
      refine hnd2.2.2 (List.mem_map.mpr ⟨src2, hsrc2, rfl⟩) ?_
      rw [heq, List.map_cons]
      exact List.mem_cons_self _ _
    have hstep := addSourceRels_inv processed acc src hinv hfresh
    have hnd3 : (((processed ++ [src]) ++ L2).map (fun s => s.item.id)).Nodup := by
      rw [List.append_assoc]
      simpa using hnd
    have hres := ih (processed ++ [src]) (addSourceRels acc src) hstep hnd3
    rw [List.append_assoc] at hres
    simpa using hres

theorem collectGroups_keys_nodup (items : List Item) (so : List SalvagingOutput)
    (ro : List RecyclingOutput) (materialIds excludedIds : List String) :
    (mapKeys (collectGroups items so ro materialIds excludedIds)).Nodup := by
  unfold collectGroups
  refine foldl_preserves (fun gs : List (String × SourceGroup) => (mapKeys gs).Nodup)
    _ materialIds _ ?_ ?_
  · intro gs mid hmid h
    refine foldl_preserves (fun gs : List (String × SourceGroup) => (mapKeys gs).Nodup)
      _ _ gs ?_ h
    intro gs2 row hrow h2
    unfold addRecycleRow
    exact nodup_keys_mapSet _ _ _ h2
  · refine foldl_preserves (fun gs : List (String × SourceGroup) => (mapKeys gs).Nodup)
      _ materialIds [] ?_ ?_
    · intro gs mid hmid h
      refine foldl_preserves (fun gs : List (String × SourceGroup) => (mapKeys gs).Nodup)
        _ _ gs ?_ h
      intro gs2 row hrow h2
      unfold addSalvageRow
      exact nodup_keys_mapSet _ _ _ h2
    · simp [mapKeys]

theorem allSources_ids_nodup (items : List Item) (scoringMethod : ScoringMethod)
    (qty : List (String × ℚ)) (td : ℚ) (excludedIds : List String)
    (gs : List (String × SourceGroup)) (hkeys : (mapKeys gs).Nodup)
    (hwf : GroupsWF items excludedIds gs) :
    ((gs.filterMap (fun p => buildSource items scoringMethod qty td p.2)).map
      (fun s => s.item.id)).Nodup := by
  induction gs with
  | nil => simp
  | cons p rest ih =>
    have hkeyc : p.1 ∉ mapKeys rest ∧ (mapKeys rest).Nodup := by
      rw [show mapKeys (p :: rest) = p.1 :: mapKeys rest from rfl, List.nodup_cons] at hkeys
      exact hkeys
    have hwr : GroupsWF items excludedIds rest := fun q hq => hwf q (List.mem_cons_of_mem p hq)
    rw [List.filterMap_cons]
    cases hf : buildSource items scoringMethod qty td p.2 with
    | none => exact ih hkeyc.2 hwr
    | some s =>
      rw [List.map_cons, List.nodup_cons]
      refine ⟨?_, ih hkeyc.2 hwr⟩
      intro hin
      rw [List.mem_map] at hin
      obtain ⟨s2, hs2, hid⟩ := hin
      rw [List.mem_filterMap] at hs2
      obtain ⟨q, hq, hf2⟩ := hs2
      have hwp := hwf p (List.mem_cons_self p rest)
      have hwq := hwf q (List.mem_cons_of_mem p hq)
      have hfp := buildSource_fields items scoringMethod qty td p.2 s hf
      have hfq := buildSource_fields items scoringMethod qty td q.2 s2 hf2
      have h1 : findItem items s.item.id = some s.item := by
        rw [hfp.1]
        exact (hwp.2.2 _ (headI_mem _ hwp.1)).1
      have h2 : findItem items s2.item.id = some s2.item := by
        rw [hfq.1]
        exact (hwq.2.2 _ (headI_mem _ hwq.1)).1
      rw [hid] at h2
      have hitems_eq : s.item = s2.item := Option.some.inj (h1.symm.trans h2)
      have hb1 : getBaseName s.item.name = p.1 := by
        rw [hfp.1]
        exact (hwp.2.2 _ (headI_mem _ hwp.1)).2.1
      have hb2 : getBaseName s2.item.name = q.1 := by
        rw [hfq.1]
        exact (hwq.2.2 _ (headI_mem _ hwq.1)).2.1
      have hpq : p.1 = q.1 := by
        rw [← hb1, ← hb2, hitems_eq]
      refine hkeyc.1 ?_
      rw [hpq]
      exact List.mem_map.mpr ⟨q, hq, rfl⟩

theorem aggregate_ids_nodup (bookmarkedIds : List String) (db : Database)
    (scoringMethod : ScoringMethod) (filterOptions : MaterialFilterOptions) :
    (((aggregateMaterials bookmarkedIds db scoringMethod filterOptions).salvageSources
      ++ (aggregateMaterials bookmarkedIds db scoringMethod filterOptions).recycleSources).map
        (fun s => s.item.id)).Nodup := by
  have hall : ((aggregateAllSources bookmarkedIds db scoringMethod filterOptions).map
      (fun s => s.item.id)).Nodup := by
    simp only [aggregateAllSources, buildAllSources]
    exact allSources_ids_nodup db.items scoringMethod
      (resolveDemand bookmarkedIds db filterOptions).materialQuantityMap
      (sumVals (resolveDemand bookmarkedIds db filterOptions).materialQuantityMap)
      (bookmarkedIds ++ mapKeys (resolveDemand bookmarkedIds db filterOptions).materialQuantityMap
        ++ filterOptions.hiddenSourceItems)
      (collectGroups db.items db.salvaging_outputs db.recycling_outputs
        (mapKeys (resolveDemand bookmarkedIds db filterOptions).materialQuantityMap)
        (bookmarkedIds ++ mapKeys (resolveDemand bookmarkedIds db filterOptions).materialQuantityMap
          ++ filterOptions.hiddenSourceItems))
      (collectGroups_keys_nodup db.items db.salvaging_outputs db.recycling_outputs _ _)
      (collectGroups_wf db.items db.salvaging_outputs db.recycling_outputs _ _)
  rw [salvageSources_eq, recycleSources_eq, List.map_append, List.nodup_append]
  have hps := (sortDescBy_perm (fun s => s.salvageScore)
    ((aggregateAllSources bookmarkedIds db scoringMethod filterOptions).filter
      sentToSalvage)).map (fun s => s.item.id)
  have hpr := (sortDescBy_perm (fun s => s.recycleScore)
    ((aggregateAllSources bookmarkedIds db scoringMethod filterOptions).filter
      sentToRecycle)).map (fun s => s.item.id)
  refine ⟨?_, ?_, ?_⟩
  · rw [hps.nodup_iff]
    exact hall.sublist ((List.filter_sublist _).map _)
  · rw [hpr.nodup_iff]
    exact hall.sublist ((List.filter_sublist _).map _)
  · intro a ha hb
    rw [hps.mem_iff, List.mem_map] at ha
    rw [hpr.mem_iff, List.mem_map] at hb
    obtain ⟨s1, hs1, hid1⟩ := ha
    obtain ⟨s2, hs2, hid2⟩ := hb
    rw [List.mem_filter] at hs1 hs2
    have heq : s1 = s2 := by
      refine List.inj_on_of_nodup_map hall hs1.1 hs2.1 ?_
      rw [hid1, hid2]
    exact not_sentToSalvage_and_sentToRecycle s1 ⟨hs1.2, heq ▸ hs2.2⟩

/-! ## C6: bidirectional consistency of the relationship maps -/

/-- C6: in every result, `materialToSources[m]` contains a source id `s` if
and only if `sourceToMaterials` has an entry for `s` whose list contains `m`,
and the lists in both maps are duplicate-free. -/
theorem relationship_maps_consistent (bookmarkedIds : List String) (db : Database)
    (scoringMethod : ScoringMethod) (filterOptions : MaterialFilterOptions)
    (res : AggregatedMaterialsData)
    (hres : res = aggregateMaterials bookmarkedIds db scoringMethod filterOptions) :
    (∀ m s, s ∈ (mapGet res.materialToSources m).getD []
      ↔ ∃ l, mapGet res.sourceToMaterials s = some l ∧ m ∈ l)
    ∧ (∀ m, ((mapGet res.materialToSources m).getD []).Nodup)
    ∧ (∀ s l, mapGet res.sourceToMaterials s = some l → l.Nodup) := by
  subst hres
  have hinv := indexer_fold_inv
    ((aggregateMaterials bookmarkedIds db scoringMethod filterOptions).salvageSources
      ++ (aggregateMaterials bookmarkedIds db scoringMethod filterOptions).recycleSources)
    [] ⟨[], []⟩ indexer_inv_init
    (by simpa using aggregate_ids_nodup bookmarkedIds db scoringMethod filterOptions)
  rw [List.nil_append] at hinv
  obtain ⟨i1a, i1b, i2a, i2b, i3⟩ := hinv
  have hrel1 : (aggregateMaterials bookmarkedIds db scoringMethod filterOptions).materialToSources
      = ((((aggregateMaterials bookmarkedIds db scoringMethod filterOptions).salvageSources
          ++ (aggregateMaterials bookmarkedIds db scoringMethod filterOptions).recycleSources).foldl
            addSourceRels ⟨[], []⟩).materialToSources) := rfl
  have hrel2 : (aggregateMaterials bookmarkedIds db scoringMethod filterOptions).sourceToMaterials
      = ((((aggregateMaterials bookmarkedIds db scoringMethod filterOptions).salvageSources
          ++ (aggregateMaterials bookmarkedIds db scoringMethod filterOptions).recycleSources).foldl
            addSourceRels ⟨[], []⟩).sourceToMaterials) := rfl
  refine ⟨?_, ?_, ?_⟩
  · intro m s
    rw [hrel1, hrel2]
    constructor
    · intro hs
      obtain ⟨src, hsrc, hid, hm⟩ := i2b m s hs
      exact ⟨matsOf src, hid ▸ i1a src hsrc, hm⟩
    · rintro ⟨l, hl, hm⟩
      obtain ⟨src, hsrc, hid, hleq⟩ := i1b s l hl
      subst hid
      exact i2a src hsrc m (hleq ▸ hm)
  · intro m
    rw [hrel1]
    exact i3 m
  · intro s l hl
    rw [hrel2] at hl
    obtain ⟨src, hsrc, hid, hleq⟩ := i1b s l hl
    subst hleq
    exact matsOf_nodup src

/-- C6, instantiated on the demo run at material m2 and source g1. -/
theorem relationship_maps_consistent_witness :
    demoResult = aggregateMaterials ["x"] demoDb ScoringMethod.max_yield demoFilt
    ∧ ("g1" ∈ (mapGet demoResult.materialToSources "m2").getD []
        ↔ ∃ l, mapGet demoResult.sourceToMaterials "g1" = some l ∧ "m2" ∈ l) :=
  ⟨rfl, (relationship_maps_consistent ["x"] demoDb ScoringMethod.max_yield demoFilt
    demoResult rfl).1 "m2" "g1"⟩

/-! ## C8: missing ingredient rows are skipped -/

theorem processRecipe_missing (db : Database) (filterOptions : MaterialFilterOptions)
    (itemId : String) (st : DemandState) (recipe : CraftingRecipe) (hc : CacheOK db st)
    (hmiss : db.itemById recipe.ingredient_id = none) :
    processRecipe db filterOptions itemId st recipe = st := by
  simp only [processRecipe]
  cases hhas : mapHas st.materialItemsMap recipe.ingredient_id with
  | true =>
    cases hmg : mapGet st.materialItemsMap recipe.ingredient_id with
    | none => simp [mapHas, hmg] at hhas
    | some mi =>
      have := hc _ _ hmg
      rw [hmiss] at this
      cases this
  | false =>
    simp only [Bool.false_eq_true, if_false]
    rw [hmiss]
    cases hmg : mapGet st.materialItemsMap recipe.ingredient_id with
    | none => rfl
    | some mi => simp [mapHas, hmg] at hhas

/-- C8: a recipe edge of a (non-paused) bookmarked item whose ingredient id
has no Item row is skipped without failing: the aggregation over a store
containing such an edge equals the aggregation over the same store with the
edge removed — the edge contributes nothing to materials, totals or
requiredBy, and the rest of the result is unchanged. -/
theorem missing_ingredient_edge_skipped (items : List Item)
    (l1 l2 : List CraftingRecipe) (e : CraftingRecipe)
    (so : List SalvagingOutput) (ro : List RecyclingOutput)
    (bookmarkedIds : List String) (scoringMethod : ScoringMethod)
    (filterOptions : MaterialFilterOptions)
    (hmiss : findItem items e.ingredient_id = none) :
    aggregateMaterials bookmarkedIds (Database.mk items (l1 ++ e :: l2) so ro)
        scoringMethod filterOptions
      = aggregateMaterials bookmarkedIds (Database.mk items (l1 ++ l2) so ro)
        scoringMethod filterOptions := by
  have hpr : processRecipe (Database.mk items (l1 ++ e :: l2) so ro) filterOptions
      = processRecipe (Database.mk items (l1 ++ l2) so ro) filterOptions := rfl
  have hfold : ∀ (bs : List String) (st : DemandState),
      CacheOK (Database.mk items (l1 ++ e :: l2) so ro) st ∧ QtyKeysCached st →
      bs.foldl (processBookmark (Database.mk items (l1 ++ e :: l2) so ro) filterOptions) st
        = bs.foldl (processBookmark (Database.mk items (l1 ++ l2) so ro) filterOptions) st := by
    intro bs
    induction bs with
    | nil => intro st hst; rfl
    | cons b bs ih =>
      intro st hst
      have hone : processBookmark (Database.mk items (l1 ++ e :: l2) so ro) filterOptions st b
          = processBookmark (Database.mk items (l1 ++ l2) so ro) filterOptions st b := by
        unfold processBookmark
        by_cases hp : b ∈ filterOptions.pausedBookmarks
        · simp [hp]
        · simp only [hp, if_false]
          have hrf1 : (Database.mk items (l1 ++ e :: l2) so ro).recipesFor b
              = l1.filter (fun r => r.item_id = b)
                ++ (e :: l2).filter (fun r => r.item_id = b) := by
            unfold Database.recipesFor
            exact List.filter_append _ _
          have hrf2 : (Database.mk items (l1 ++ l2) so ro).recipesFor b
              = l1.filter (fun r => r.item_id = b) ++ l2.filter (fun r => r.item_id = b) := by
            unfold Database.recipesFor
            exact List.filter_append _ _
          rw [hrf1, hrf2, hpr]
          by_cases hb : e.item_id = b
          · have hecons : (e :: l2).filter (fun r => r.item_id = b)
                = e :: l2.filter (fun r => r.item_id = b) := by
              simp [List.filter_cons, hb]
            rw [hecons]
            rw [List.foldl_append, List.foldl_append]
            have hmid : CacheOK (Database.mk items (l1 ++ e :: l2) so ro)
                ((l1.filter (fun r => r.item_id = b)).foldl
                  (processRecipe (Database.mk items (l1 ++ l2) so ro) filterOptions b) st)
                ∧ QtyKeysCached ((l1.filter (fun r => r.item_id = b)).foldl
                  (processRecipe (Database.mk items (l1 ++ l2) so ro) filterOptions b) st) := by
              refine foldl_preserves
                (fun st => CacheOK (Database.mk items (l1 ++ e :: l2) so ro) st
                  ∧ QtyKeysCached st) _ _ st ?_ hst
              intro st2 r hr hst2
              exact processRecipe_inv (Database.mk items (l1 ++ e :: l2) so ro)
                filterOptions b st2 r hst2
            rw [List.foldl_cons]
            rw [processRecipe_missing (Database.mk items (l1 ++ l2) so ro) filterOptions b _ e
              hmid.1 hmiss]
          · have hecons : (e :: l2).filter (fun r => r.item_id = b)
                = l2.filter (fun r => r.item_id = b) := by
              simp [List.filter_cons, hb]
            rw [hecons]
      rw [List.foldl_cons, List.foldl_cons, hone]
      have hinv := processBookmark_inv (Database.mk items (l1 ++ e :: l2) so ro)
        filterOptions st b hst
      rw [hone] at hinv
      exact ih (processBookmark (Database.mk items (l1 ++ l2) so ro) filterOptions st b) hinv

  have hrd : resolveDemand bookmarkedIds (Database.mk items (l1 ++ e :: l2) so ro) filterOptions
      = resolveDemand bookmarkedIds (Database.mk items (l1 ++ l2) so ro) filterOptions := by
    unfold resolveDemand
    exact hfold bookmarkedIds ⟨[], [], []⟩
      ⟨fun k it hit => Option.noConfusion hit, fun k hs => Bool.noConfusion hs⟩
  show buildFromDemand items so ro bookmarkedIds scoringMethod filterOptions
      (resolveDemand bookmarkedIds (Database.mk items (l1 ++ e :: l2) so ro) filterOptions)
    = buildFromDemand items so ro bookmarkedIds scoringMethod filterOptions
      (resolveDemand bookmarkedIds (Database.mk items (l1 ++ l2) so ro) filterOptions)
  rw [hrd]

/-- C8, instantiated: inserting a dangling edge (x requires 7 ghost) into the
demo store's recipes leaves the aggregation result unchanged. -/
theorem missing_ingredient_edge_skipped_witness :
    findItem demoDb.items "ghost" = none
    ∧ aggregateMaterials ["x"]
        (Database.mk demoDb.items
          ([⟨"x", "m1", 5⟩] ++ CraftingRecipe.mk "x" "ghost" 7 :: [⟨"x", "m2", 5⟩])
          demoDb.salvaging_outputs demoDb.recycling_outputs)
        ScoringMethod.max_yield demoFilt
      = aggregateMaterials ["x"]
        (Database.mk demoDb.items ([⟨"x", "m1", 5⟩] ++ [⟨"x", "m2", 5⟩])
          demoDb.salvaging_outputs demoDb.recycling_outputs)
        ScoringMethod.max_yield demoFilt :=
  ⟨by with_unfolding_all decide,
   missing_ingredient_edge_skipped demoDb.items [⟨"x", "m1", 5⟩] [⟨"x", "m2", 5⟩]
     (CraftingRecipe.mk "x" "ghost" 7) demoDb.salvaging_outputs demoDb.recycling_outputs
     ["x"] ScoringMethod.max_yield demoFilt (by with_unfolding_all decide)⟩

/-! ## C1: conservation of the demand total -/

/-- C1: the sum of `totalQuantity` over the returned materials equals the sum
of the `quantity` fields of all recipe edges of non-paused bookmarked items
whose ingredient exists in the store and passes the rarity/Scrappy filter
(`edgeContribution` is that quantity, and 0 for a filtered or dangling edge):
every passing edge is counted exactly once. -/
theorem total_demand_conserved (bookmarkedIds : List String) (db : Database)
    (scoringMethod : ScoringMethod) (filterOptions : MaterialFilterOptions)
    (res : AggregatedMaterialsData)
    (hres : res = aggregateMaterials bookmarkedIds db scoringMethod filterOptions) :
    (res.materials.map (fun m => m.totalQuantity)).sum
      = ((bookmarkedIds.filter (fun b => b ∉ filterOptions.pausedBookmarks)).map
          (fun b => ((db.recipesFor b).map (edgeContribution db filterOptions)).sum)).sum := by
  subst hres
  rw [materials_eq]
  rw [((sortDescBy_perm (fun m => m.totalQuantity)
    (buildMaterials (resolveDemand bookmarkedIds db filterOptions))).map
      (fun m => m.totalQuantity)).sum_eq]
  rw [buildMaterials_sum (resolveDemand bookmarkedIds db filterOptions)
    (resolveDemand_inv bookmarkedIds db filterOptions).2]
  rw [resolveDemand_qtySum bookmarkedIds db filterOptions]
  exact sum_ite_filter bookmarkedIds filterOptions.pausedBookmarks _

/-- C1, instantiated on the demo run: both sides evaluate to 10. -/
theorem total_demand_conserved_witness :
    demoResult = aggregateMaterials ["x"] demoDb ScoringMethod.max_yield demoFilt
    ∧ (demoResult.materials.map (fun m => m.totalQuantity)).sum
        = (((["x"] : List String).filter (fun b => b ∉ demoFilt.pausedBookmarks)).map
            (fun b => ((demoDb.recipesFor b).map (edgeContribution demoDb demoFilt)).sum)).sum
    ∧ (demoResult.materials.map (fun m => m.totalQuantity)).sum = 10 :=
  ⟨rfl,
   total_demand_conserved ["x"] demoDb ScoringMethod.max_yield demoFilt demoResult rfl,
   by with_unfolding_all decide⟩

theorem sent_both_zero (source : SalvagingSource) (hs : source.salvageScore = 0)
    (hr : source.recycleScore = 0) :
    sentToSalvage source = false ∧ sentToRecycle source = false := by
  constructor <;> simp [sentToSalvage, sentToRecycle, hs, hr]

/-! ## C3: score invariants -/

/-- C3: on a store with non-negative catalog numbers, every source in either
output list has non-negative salvage and recycle scores, and no source whose
two scores are both exactly 0 appears in either list (such sources are
dropped by the partition loop). -/
theorem scores_nonneg (bookmarkedIds : List String) (db : Database)
    (scoringMethod : ScoringMethod) (filterOptions : MaterialFilterOptions)
    (res : AggregatedMaterialsData) (hdb : NonnegDB db)
    (hres : res = aggregateMaterials bookmarkedIds db scoringMethod filterOptions)
    (source : SalvagingSource)
    (hmem : source ∈ res.salvageSources ∨ source ∈ res.recycleSources) :
    0 ≤ source.salvageScore ∧ 0 ≤ source.recycleScore
    ∧ ¬ (source.salvageScore = 0 ∧ source.recycleScore = 0) := by
  subst hres
  obtain ⟨hw, hrec_q, hso_q, hro_q⟩ := hdb
  have hA : source ∈ aggregateAllSources bookmarkedIds db scoringMethod filterOptions := by
    rcases hmem with h | h
    · exact ((mem_salvageSources_iff bookmarkedIds db scoringMethod filterOptions source).mp h).1
    · exact ((mem_recycleSources_iff bookmarkedIds db scoringMethod filterOptions source).mp h).1
  obtain ⟨p, hp, hbs⟩ := mem_aggregateAllSources bookmarkedIds db scoringMethod filterOptions
    source hA
  have hwf := collectGroups_wf db.items db.salvaging_outputs db.recycling_outputs
    (mapKeys (resolveDemand bookmarkedIds db filterOptions).materialQuantityMap)
    (bookmarkedIds ++ mapKeys (resolveDemand bookmarkedIds db filterOptions).materialQuantityMap
      ++ filterOptions.hiddenSourceItems) p hp
  have hnn := collectGroups_nonneg db.items db.salvaging_outputs db.recycling_outputs
    (mapKeys (resolveDemand bookmarkedIds db filterOptions).materialQuantityMap)
    (bookmarkedIds ++ mapKeys (resolveDemand bookmarkedIds db filterOptions).materialQuantityMap
      ++ filterOptions.hiddenSourceItems) hso_q hro_q p hp
  have hscores := buildSource_scores db.items scoringMethod
    (resolveDemand bookmarkedIds db filterOptions).materialQuantityMap
    (sumVals (resolveDemand bookmarkedIds db filterOptions).materialQuantityMap) p.2 source hbs
  have hrepfind := (hwf.2.2 p.2.items.headI (headI_mem _ hwf.1)).1
  have hrepmem : p.2.items.headI ∈ db.items := findItem_mem _ _ _ hrepfind
  have hrw : 0 ≤ (p.2.items.headI).weight_kg := (hw _ hrepmem).1
  have hrv : 0 ≤ (p.2.items.headI).value := (hw _ hrepmem).2
  have hqty := resolveDemand_qty_nonneg bookmarkedIds db filterOptions hrec_q
  have havgS := avgYields_nonneg p.2.salvageYieldsMap p.2.items.length
    (resolveDemand bookmarkedIds db filterOptions).materialQuantityMap hnn.1
  have havgR := avgYields_nonneg p.2.recycleYieldsMap p.2.items.length
    (resolveDemand bookmarkedIds db filterOptions).materialQuantityMap hnn.2
  refine ⟨?_, ?_, ?_⟩
  · rw [hscores.1]
    refine salvageScoreCalc_nonneg _ _ _ _ _ (baseScoreOf_nonneg _ _ _ havgS hqty) ?_
      (slotBonusOf_pos _).le
    split_ifs with hh
    · exact hh.le
    · exact hrw
  · rw [hscores.2]
    exact mul_nonneg
      (recycleScoreCalc_nonneg _ _ _ _ (baseScoreOf_nonneg _ _ _ havgR hqty) hrw hrv)
      (slotBonusOf_pos _).le
  · rintro ⟨h0s, h0r⟩
    obtain ⟨hfs, hfr⟩ := sent_both_zero source h0s h0r
    rcases hmem with h | h
    · have := ((mem_salvageSources_iff bookmarkedIds db scoringMethod filterOptions source).mp h).2
      rw [hfs] at this
      cases this
    · have := ((mem_recycleSources_iff bookmarkedIds db scoringMethod filterOptions source).mp h).2
      rw [hfr] at this
      cases this

/-- C3, instantiated on the demo run and its recycle-only Box source. -/
theorem scores_nonneg_witness :
    NonnegDB demoDb
    ∧ demoResult.recycleSources.headI ∈ demoResult.recycleSources
    ∧ 0 ≤ demoResult.recycleSources.headI.salvageScore
    ∧ 0 ≤ demoResult.recycleSources.headI.recycleScore
    ∧ ¬ (demoResult.recycleSources.headI.salvageScore = 0
        ∧ demoResult.recycleSources.headI.recycleScore = 0) := by
  have h := scores_nonneg ["x"] demoDb ScoringMethod.max_yield demoFilt demoResult
    (by with_unfolding_all decide) rfl (demoResult.recycleSources.headI)
    (Or.inr (by with_unfolding_all decide))
  exact ⟨by with_unfolding_all decide, by with_unfolding_all decide, h.1, h.2.1, h.2.2⟩

/-! ## C4: sources never come from the exclusion set -/

/-- C4: no source in `salvageSources` or `recycleSources` has an item id that
is bookmarked, is a demanded material, or is hidden by the user: source
discovery filters every candidate row against the exclusion set
bookmarks ∪ demanded materials ∪ hiddenSourceItems. -/
theorem sources_not_excluded (bookmarkedIds : List String) (db : Database)
    (scoringMethod : ScoringMethod) (filterOptions : MaterialFilterOptions)
    (res : AggregatedMaterialsData)
    (hres : res = aggregateMaterials bookmarkedIds db scoringMethod filterOptions)
    (source : SalvagingSource)
    (hmem : source ∈ res.salvageSources ∨ source ∈ res.recycleSources) :
    source.item.id ∉ bookmarkedIds
    ∧ source.item.id ∉ res.materials.map (fun m => m.item.id)
    ∧ source.item.id ∉ filterOptions.hiddenSourceItems := by
  subst hres
  have hA : source ∈ aggregateAllSources bookmarkedIds db scoringMethod filterOptions := by
    rcases hmem with h | h
    · exact ((mem_salvageSources_iff bookmarkedIds db scoringMethod filterOptions source).mp h).1
    · exact ((mem_recycleSources_iff bookmarkedIds db scoringMethod filterOptions source).mp h).1
  obtain ⟨p, hp, hbs⟩ := mem_aggregateAllSources bookmarkedIds db scoringMethod filterOptions
    source hA
  have hpwf := collectGroups_wf db.items db.salvaging_outputs db.recycling_outputs
    (mapKeys (resolveDemand bookmarkedIds db filterOptions).materialQuantityMap)
    (bookmarkedIds ++ mapKeys (resolveDemand bookmarkedIds db filterOptions).materialQuantityMap
      ++ filterOptions.hiddenSourceItems) p hp
  have hfields := buildSource_fields db.items scoringMethod
    (resolveDemand bookmarkedIds db filterOptions).materialQuantityMap
    (sumVals (resolveDemand bookmarkedIds db filterOptions).materialQuantityMap) p.2 source hbs
  have hrep := hpwf.2.2 p.2.items.headI (headI_mem p.2.items hpwf.1)
  have hnot : source.item.id ∉
      bookmarkedIds ++ mapKeys (resolveDemand bookmarkedIds db filterOptions).materialQuantityMap
        ++ filterOptions.hiddenSourceItems := by
    rw [hfields.1]
    exact hrep.2.2
  rw [List.mem_append, List.mem_append] at hnot
  push_neg at hnot
  refine ⟨hnot.1.1, ?_, hnot.2⟩
  intro hin
  rw [List.mem_map] at hin
  obtain ⟨m, hm, hmid⟩ := hin
  have hsub : m.item.id ∈
      mapKeys (resolveDemand bookmarkedIds db filterOptions).materialQuantityMap :=
    materials_ids_in_qtyKeys bookmarkedIds db filterOptions m
      (by rw [← materials_eq bookmarkedIds db scoringMethod filterOptions]; exact hm)
  rw [hmid] at hsub
  exact hnot.1.2 hsub

/-- C4, instantiated on the demo run: the Gadget source's id g1 is not a
bookmark, not a demanded material and not hidden. -/
theorem sources_not_excluded_witness :
    demoResult.salvageSources.headI ∈ demoResult.salvageSources
    ∧ demoResult.salvageSources.headI.item.id ∉ ["x"]
    ∧ demoResult.salvageSources.headI.item.id ∉ demoResult.materials.map (fun m => m.item.id)
    ∧ demoResult.salvageSources.headI.item.id ∉ demoFilt.hiddenSourceItems := by
  have h := sources_not_excluded ["x"] demoDb ScoringMethod.max_yield demoFilt demoResult rfl
    (demoResult.salvageSources.headI) (Or.inl (by with_unfolding_all decide))
  exact ⟨by with_unfolding_all decide, h.1, h.2.1, h.2.2⟩

/-! ## C2: bucket partition correctness -/

/-- C2: every source returned by `aggregateMaterials` obeys the threshold
rule.  With both scores positive it is in `recycleSources` exactly when
`recycleScore / salvageScore > 2.0` and in `salvageSources` exactly
otherwise; a zero salvage score with positive recycle score forces Recycle, a
zero recycle score with positive salvage score forces Salvage; and no source
is in both lists. -/
theorem bucket_partition_correct (bookmarkedIds : List String) (db : Database)
    (scoringMethod : ScoringMethod) (filterOptions : MaterialFilterOptions)
    (res : AggregatedMaterialsData)
    (hres : res = aggregateMaterials bookmarkedIds db scoringMethod filterOptions)
    (source : SalvagingSource)
    (hmem : source ∈ res.salvageSources ∨ source ∈ res.recycleSources) :
    ¬ (source ∈ res.salvageSources ∧ source ∈ res.recycleSources)
    ∧ (0 < source.salvageScore → 0 < source.recycleScore →
        ((source ∈ res.recycleSources ↔
            RECYCLING_THRESHOLD < source.recycleScore / source.salvageScore)
          ∧ (source ∈ res.salvageSources ↔
            ¬ RECYCLING_THRESHOLD < source.recycleScore / source.salvageScore)))
    ∧ (source.salvageScore = 0 → 0 < source.recycleScore →
        source ∈ res.recycleSources ∧ source ∉ res.salvageSources)
    ∧ (source.recycleScore = 0 → 0 < source.salvageScore →
        source ∈ res.salvageSources ∧ source ∉ res.recycleSources) := by
  subst hres
  have hsal := mem_salvageSources_iff bookmarkedIds db scoringMethod filterOptions source
  have hrec := mem_recycleSources_iff bookmarkedIds db scoringMethod filterOptions source
  have hA : source ∈ aggregateAllSources bookmarkedIds db scoringMethod filterOptions := by
    rcases hmem with h | h
    · exact (hsal.mp h).1
    · exact (hrec.mp h).1
  refine ⟨?_, ?_, ?_, ?_⟩
  · rintro ⟨h1, h2⟩
    exact not_sentToSalvage_and_sentToRecycle source ⟨(hsal.mp h1).2, (hrec.mp h2).2⟩
  · intro hs hr
    obtain ⟨l1, l2⟩ := sent_of_both_pos source hs hr
    exact ⟨hrec.trans ((and_iff_right hA).trans l1), hsal.trans ((and_iff_right hA).trans l2)⟩
  · intro hs hr
    obtain ⟨h1, h2⟩ := sent_of_salvage_zero source hs hr
    refine ⟨hrec.mpr ⟨hA, h1⟩, fun hin => ?_⟩
    have := (hsal.mp hin).2
    rw [h2] at this
    cases this
  · intro hr hs
    obtain ⟨h1, h2⟩ := sent_of_recycle_zero source hr hs
    refine ⟨hsal.mpr ⟨hA, h1⟩, fun hin => ?_⟩
    have := (hrec.mp hin).2
    rw [h2] at this
    cases this

/-- C2, instantiated on the demo run: the Gadget source has both scores
positive (3/5 and 17/80), is not in both lists, and sits in `salvageSources`
because its recycling advantage does not exceed the threshold. -/
theorem bucket_partition_correct_witness :
    demoResult.salvageSources.headI ∈ demoResult.salvageSources
    ∧ 0 < demoResult.salvageSources.headI.salvageScore
    ∧ 0 < demoResult.salvageSources.headI.recycleScore
    ∧ ¬ (demoResult.salvageSources.headI ∈ demoResult.salvageSources
        ∧ demoResult.salvageSources.headI ∈ demoResult.recycleSources)
    ∧ (demoResult.salvageSources.headI ∈ demoResult.salvageSources ↔
        ¬ RECYCLING_THRESHOLD < demoResult.salvageSources.headI.recycleScore /
          demoResult.salvageSources.headI.salvageScore) := by
  have h := bucket_partition_correct ["x"] demoDb ScoringMethod.max_yield demoFilt
    demoResult rfl (demoResult.salvageSources.headI)
    (Or.inl (by with_unfolding_all decide))
  exact ⟨by with_unfolding_all decide, by with_unfolding_all decide,
    by with_unfolding_all decide, h.1,
    (h.2.1 (by with_unfolding_all decide) (by with_unfolding_all decide)).2⟩

/-! ## C7: determinism and idempotence -/

/-- C7: `aggregateMaterials` is deterministic and idempotent.  The TypeScript
function performs no I/O and mutates only run-local maps, so its embedding is
a pure function: two calls on identical bookmark list, store, scoring mode
and filter configuration produce (deeply) equal results, with identical
totals and identical element order in every output list and map. -/
theorem aggregateMaterials_deterministic (bookmarkedIds : List String) (db : Database)
    (scoringMethod : ScoringMethod) (filterOptions : MaterialFilterOptions) :
    aggregateMaterials bookmarkedIds db scoringMethod filterOptions =
      aggregateMaterials bookmarkedIds db scoringMethod filterOptions := rfl

/-! ## C9: the slot-efficiency bonus never decreases a score -/

/-- C9: the slot-efficiency bonus `max(1.0, 1 + (slotEfficiency - 1) * 0.3)`
is at least 1 for every slot-efficiency value, so multiplying a (non-negative)
score by it never decreases that score. -/
theorem slotBonus_never_decreases_score (slotEfficiency score : ℚ) (h : 0 ≤ score) :
    1 ≤ slotBonusOf slotEfficiency ∧ score ≤ score * slotBonusOf slotEfficiency :=
  ⟨le_max_left 1 _, le_mul_of_one_le_right h (le_max_left 1 _)⟩

/-- C9, instantiated at slot efficiency 1/2 and score 5. -/
theorem slotBonus_never_decreases_score_witness :
    0 ≤ (5:ℚ) ∧ (1 ≤ slotBonusOf (1/2) ∧ (5:ℚ) ≤ 5 * slotBonusOf (1/2)) :=
  ⟨by norm_num, slotBonus_never_decreases_score (1/2) 5 (by norm_num)⟩

/-! ## C5: effect of switching to weight-conscious scoring -/

/-- C5 fails as stated: in `cexDb` the lone salvage source has representative
`weight_kg = 2`, identical base score and rarity in both runs, yet switching
from max-yield to weight-conscious scoring raises its salvage score from 24/5
to 48/5.  The weight factor squares the total yield weight (here 1/2 < 1),
not the representative's weight. -/
theorem weightConscious_claim_counterexample :
    ((aggregateMaterials ["x5"] cexDb ScoringMethod.max_yield demoFilt).salvageSources.map
        (fun s => (s.item.weight_kg, s.salvageScore)) = [(2, 24/5)])
    ∧ ((aggregateMaterials ["x5"] cexDb ScoringMethod.weight_conscious demoFilt).salvageSources.map
        (fun s => (s.item.weight_kg, s.salvageScore)) = [(2, 48/5)])
    ∧ ¬ ((48/5 : ℚ) < 24/5) := by
  refine ⟨?_, ?_, ?_⟩ <;> with_unfolding_all decide

/-- C5 (amended): switching from max-yield to weight-conscious scoring
strictly decreases the salvage score, with base score, rarity and slot bonus
held constant, provided the base score is positive and the effective weight
entering the formula (total salvage yield weight, or the representative's
weight as fallback) exceeds 1. -/
theorem weightConscious_decreases_salvageScore (salvageBaseScore effectiveWeight : ℚ)
    (rarity : String) (slotBonus : ℚ) (hbase : 0 < salvageBaseScore)
    (hw : 1 < effectiveWeight) (hsb : 1 ≤ slotBonus) :
    salvageScoreCalc salvageBaseScore effectiveWeight rarity slotBonus
        ScoringMethod.weight_conscious
      < salvageScoreCalc salvageBaseScore effectiveWeight rarity slotBonus
        ScoringMethod.max_yield := by
  have hpen := RARITY_SALVAGE_PENALTY_pos rarity
  have he : (0:ℚ) < effectiveWeight := lt_trans one_pos hw
  have hsq : effectiveWeight < effectiveWeight ^ 2 := by nlinarith
  have hdiv : salvageBaseScore / effectiveWeight ^ 2 < salvageBaseScore / effectiveWeight :=
    div_lt_div_of_pos_left hbase he hsq
  have hIB : (0:ℚ) < IMMEDIACY_BONUS := by norm_num [IMMEDIACY_BONUS]
  have hsb0 : (0:ℚ) < slotBonus := lt_of_lt_of_le one_pos hsb
  simp only [salvageScoreCalc, reduceCtorEq, reduceIte]
  exact mul_lt_mul_of_pos_right
    (mul_lt_mul_of_pos_right (mul_lt_mul_of_pos_right hdiv hpen) hIB) hsb0

/-- C5 (amended), instantiated at base score 2, effective weight 3, Common
rarity and slot bonus 1. -/
theorem weightConscious_decreases_salvageScore_witness :
    0 < (2:ℚ) ∧ 1 < (3:ℚ) ∧ 1 ≤ (1:ℚ)
    ∧ salvageScoreCalc 2 3 "Common" 1 ScoringMethod.weight_conscious
        < salvageScoreCalc 2 3 "Common" 1 ScoringMethod.max_yield :=
  ⟨by norm_num, by norm_num, le_refl 1,
    weightConscious_decreases_salvageScore 2 3 "Common" 1 (by norm_num) (by norm_num) (le_refl 1)⟩

/-! ## C10: a rounded-to-zero average yield is still indexed -/

/-- C10: in the demo run the Gadget tier group (three variants) accumulates a
total salvage yield of 1 unit of material m1, and `Math.round(1/3) = 0`; the
resulting source keeps a zero-quantity entry for m1 in its salvage yields, and
m1 is still recorded in `sourceToMaterials` for the source (id g1) and g1 in
`materialToSources` for m1. -/
theorem zeroYield_material_still_indexed :
    (demoResult.salvageSources.map (fun s => s.item.id) = ["g1"])
    ∧ (demoResult.salvageSources.map (fun s => mapGet s.salvageYields "m1") = [some 0])
    ∧ "m1" ∈ (mapGet demoResult.sourceToMaterials "g1").getD []
    ∧ "g1" ∈ (mapGet demoResult.materialToSources "m1").getD [] := by
  refine ⟨?_, ?_, ?_, ?_⟩ <;> with_unfolding_all decide

end ArCompanion
